import Mathlib

/-!
Shallow embedding of `scheduler.py` from dos-group/group-adaptive-scheduler.

The file embeds the scheduler core: the base `Scheduler` class
(`update_estimation`, `schedule_application`, `get_application_to_schedule`,
`_place`), the `Adaptive`, `GroupAdaptive` and `GroupAdaptiveExtend`
selection loops, the group-aware placement
(`place_containers_with_group`), and the constructors' handling of
`jobs_to_peek` / `waiting_limit`.

Collaborator modules (`cluster.py`, `application.py`, `complementarity.py`,
`job_group_data.py`, sklearn's `LeaveOneOut`, numpy's RNG) are not part of
the sources; they are modelled from the spec's interface contracts:
cluster queries become fields of a `Cluster` record, the estimator and the
RNG become explicit function arguments, and exceptions become an error
result that carries the mutated state (Python exceptions do not roll back
mutations).
-/

namespace GroupSched

/-- Embeds the `Application` data model (spec §3): container count, task
list (each task optionally bound to a node address), master node, assigned
node set, cluster slot, waiting-time counter.  `id` stands for Python
object identity. -/
structure App where
  id : Nat
  name : String
  n_containers : Nat
  waiting_time : Nat
  cluster_slot : Option Nat
  nodes : List String
  node : Option String
  tasks : List (Option String)
deriving DecidableEq

/-- Default value standing for an unreachable list access. -/
def dummyApp : App := ⟨0, "", 0, 0, none, [], none, []⟩

/-- Embeds `Node`: a fixed-capacity container host; containers are tagged
by (owning app id, container index). -/
structure Node where
  capacity : Nat
  containers : List (Nat × Nat)
deriving DecidableEq

/-- Modelled from the spec: the cluster query interface of `cluster.py`
(not part of the sources).  `nodes` is the address→node mapping in
insertion order; `running` / `runningW` are the result of
`applications(by_name=True)`; `runningNonFull` / `runningNonFullW` of
`applications(with_full_nodes=False, by_name=True)`; `hasAppRunning` of
`has_application_running()`.  Within a single admission call these query
results are stable because nothing is placed before they are read. -/
structure Cluster where
  nodes : List (String × Node)
  running : List App
  runningW : List Nat
  runningNonFull : List App
  runningNonFullW : List Nat
  hasAppRunning : Bool
deriving DecidableEq

/-- Embeds `cluster.available_containers()`: total free slots, derived
from the nodes so that placement is reflected immediately. -/
def Cluster.available_containers (c : Cluster) : Nat :=
  (c.nodes.map (fun an => an.2.capacity - an.2.containers.length)).sum

/-- The mutable scheduler state the embedded methods act on. -/
structure SchedState where
  queue : List App
  cluster : Cluster
  jobs_to_peek : Nat
  scheduled_apps_num : Nat
  waiting_limit : Int
deriving DecidableEq

/-- Modelled from the spec: `JobGroupData.SLOT_1` (static partition label,
`job_group_data.py` is not part of the sources; only equality on the two
labels is ever used). -/
def SLOT_1 : Nat := 1

/-- Modelled from the spec: `JobGroupData.SLOT_2`. -/
def SLOT_2 : Nat := 2

/-- Errors: `noApp` embeds `NoApplicationCanBeScheduled`; `fatal` embeds
any other Python exception (IndexError / ValueError). -/
inductive SchedErr where
  | noApp : SchedErr
  | fatal : SchedErr
deriving DecidableEq

deriving instance DecidableEq for Except

/-! ## Estimator updates (`Scheduler.update_estimation`, lines 49-55) -/

/-- Modelled from the spec: a usage sample exposes only `is_not_idle()`
and `rate()` (spec §4.1). -/
structure Usage where
  is_not_idle : Bool
  rate : Int
deriving DecidableEq

/-- One `estimation.update_app(target, peers, rate)` call. -/
structure UpdateCall where
  target : App
  peers : List App
  rate : Int
deriving DecidableEq

/-- Modelled from the spec: sklearn's `LeaveOneOut(k)` yields, for each
left-out index `i` in increasing order, the pair `(rest, out)` with
`out = [i]` and `rest` all other indices in increasing order (spec §4.2's
leave-one-out protocol). -/
def leaveOneOut (k : Nat) : List (List Nat × List Nat) :=
  (List.range k).map (fun i => ((List.range k).filter (fun j => j ≠ i), [i]))

/-- Embeds `Scheduler.update_estimation` (lines 49-53) as the trace of
`update_app` calls it performs on one tick, given the per-node
observations returned by `cluster.apps_usage()`. -/
def update_estimation (obs : List (List App × Usage)) : List UpdateCall :=
  obs.flatMap (fun au =>
    if au.1.length > 0 ∧ au.2.is_not_idle then
      (leaveOneOut au.1.length).map (fun ro =>
        ⟨au.1.getD (ro.2.getD 0 0) dummyApp,
         ro.1.map (fun i => au.1.getD i dummyApp),
         au.2.rate⟩)
    else [])

/-! ## The placement primitive (`Scheduler._place`, lines 256-270) -/

/-- Embeds the count `n` computed at lines 262-263: tasks already bound to
a node, plus one for the application master if placed. -/
def placedCount (app : App) : Nat :=
  (app.tasks.filter (fun t => t.isSome)).length +
    (if app.node.isSome then 1 else 0)

/-- The body of `Scheduler._place` for a positive request `nc` (lines
262-270): the loop places container `k` for `k ∈ [n, n+nc)` with
`k < app.n_containers`.  `node.add_container` is modelled from the spec as
appending the container to the node and binding the app's task `k`.
The returned integer embeds `k - n + 1`, whose value after the full
`for k in range(n, n + nc)` loop is `nc` (the Python loop variable leaks
out of the loop; the `if` inside does not stop it). -/
def placeCore (app : App) (addr : String) (node : Node) (nc : Nat) :
    App × Node × Nat :=
  let n := placedCount app
  let ks := ((List.range nc).map (fun j => j + n)).filter
    (fun k => k < app.n_containers)
  (⟨app.id, app.name, app.n_containers, app.waiting_time, app.cluster_slot,
    app.nodes, app.node,
    ks.foldl (fun ts k => ts.set k (some addr)) app.tasks⟩,
   ⟨node.capacity, node.containers ++ ks.map (fun k => (app.id, k))⟩,
   nc)

/-- Embeds `Scheduler._place(app, node, n_containers)` (lines 256-270):
raises `ValueError` for a non-positive request, otherwise runs the
placement loop. -/
def place (app : App) (addr : String) (node : Node) (n_containers : Int) :
    Except String (App × Node × Nat) :=
  if n_containers ≤ 0 then .error "Can not place"
  else .ok (placeCore app addr node n_containers.toNat)

/-! ## Constructors (`__init__`s, lines 21-36, 317-320, 355-359, 483-491) -/

/-- Embeds the class attribute `Scheduler.jobs_to_peek_arg = 7` (line 21),
at its default value. -/
def jobs_to_peek_arg : Nat := 7

/-- Embeds the class attribute `Scheduler.waiting_limit = -1` (line 23),
at its default value. -/
def waiting_limit_arg : Int := -1

/-- The configuration established by a constructor. -/
structure Config where
  jobs_to_peek : Nat
  waiting_limit : Int
deriving DecidableEq

/-- Embeds `Scheduler.__init__` (line 36): `jobs_to_peek` is set to the
class attribute `jobs_to_peek_arg`; `waiting_limit` stays at the class
attribute. -/
def Scheduler.init : Config :=
  ⟨jobs_to_peek_arg, waiting_limit_arg⟩

/-- Embeds `Adaptive.__init__(jobs_to_peek=8)` (lines 317-320): after
`super().__init__`, line 319 overwrites `jobs_to_peek` with
`jobs_to_peek_arg`; the `jobs_to_peek` parameter is never read. -/
def Adaptive.init (jobs_to_peek : Nat := 8) : Config :=
  let _ := jobs_to_peek
  ⟨jobs_to_peek_arg, Scheduler.init.waiting_limit⟩

/-- Embeds `GroupAdaptive.__init__(jobs_to_peek=6)` (lines 355-359):
line 357 overwrites `jobs_to_peek` with `jobs_to_peek_arg`; the parameter
is never read. -/
def GroupAdaptive.init (jobs_to_peek : Nat := 6) : Config :=
  let _ := jobs_to_peek
  ⟨jobs_to_peek_arg, Scheduler.init.waiting_limit⟩

/-- Embeds `GroupAdaptiveExtend.__init__(jobs_to_peek=6)` (lines 483-491):
line 485 overwrites `jobs_to_peek` with `jobs_to_peek_arg`; line 486-487
set `waiting_limit` to `jobs_to_peek_arg * 2` when it is `-1`
(`is -1` behaves as value equality on CPython's cached small ints). -/
def GroupAdaptiveExtend.init (jobs_to_peek : Nat := 6) : Config :=
  let _ := jobs_to_peek
  let base := Scheduler.init
  ⟨jobs_to_peek_arg,
   if base.waiting_limit = -1 then (jobs_to_peek_arg : Int) * 2
   else base.waiting_limit⟩

/-! ## Waiting-time-based probabilities
(`GroupAdaptiveExtend.get_waiting_time_based_probability`, lines 547-554) -/

/-- Embeds `get_waiting_time_based_probability(list_apps)` (lines
547-554).  Python's `total_waiting_time is 0` behaves as value equality on
CPython's cached small ints; the float divisions are modelled exactly in
`ℚ`. -/
def get_waiting_time_based_probability (list_apps : List App) : List ℚ :=
  let total : Nat := (list_apps.map (fun a => a.waiting_time)).sum
  if total = 0 then
    let total1 : Nat := 1 * list_apps.length
    list_apps.map (fun a => ((a.waiting_time : ℚ) + 1) / (total1 : ℚ))
  else
    list_apps.map (fun a => (a.waiting_time : ℚ) / (total : ℚ))

/-! ## Waiting-time increments on the peek window
(`for i in index: self.queue[i].waiting_time += 1`,
lines 328-330 / 425-427 / 566-570, with `index = range(min(jobs_to_peek,
len(queue)))`) -/

/-- `app.waiting_time = app.waiting_time + 1` on one application. -/
def appInc (a : App) : App :=
  ⟨a.id, a.name, a.n_containers, a.waiting_time + 1, a.cluster_slot,
   a.nodes, a.node, a.tasks⟩

/-- Increments `waiting_time` of the first `n` queued apps. -/
def incWindow : List App → Nat → List App
  | [], _ => []
  | q, 0 => q
  | a :: q, n + 1 => appInc a :: incWindow q n

/-! ## Base selection (`Scheduler.get_application_to_schedule`,
lines 235-239) -/

/-- Embeds the base `get_application_to_schedule`: peek `queue[0]`
(IndexError on an empty queue), raise `NoApplicationCanBeScheduled` if it
does not fit, else pop it.  The second component is the queue after the
call (mutations survive the raise). -/
def Scheduler.get_application_to_schedule (avail : Nat) (q : List App) :
    Except SchedErr App × List App :=
  match q with
  | [] => (.error .fatal, q)
  | app :: rest =>
    if app.n_containers > avail then (.error .noApp, q)
    else (.ok app, rest)

/-! ## Adaptive selection (`Adaptive.get_application_to_schedule`,
lines 322-351) -/

/-- Embeds the `while len(index) > 0` loop of lines 332-351.  Each round:
`best_i = estimation.best_app_index(scheduled, [queue[i] for i in index],
weights)`; then `best_app = self.queue[best_i]` (IndexError if `best_i`
is not a valid *queue* position), the fit check pops `queue[best_i]`,
and otherwise `index.pop(best_i)` drops position `best_i` of `index`
(IndexError if out of range). -/
def adaptiveLoop (est : List App → List App → List Nat → Nat)
    (sA : List App) (sW : List Nat) (avail : Nat) (q : List App) :
    List Nat → Except SchedErr App × List App
  | [] => (.error .noApp, q)
  | i0 :: index' =>
    let best_i :=
      est sA ((i0 :: index').map (fun i => q.getD i dummyApp)) sW
    if best_i < q.length then
      let best_app := q.getD best_i dummyApp
      if best_app.n_containers ≤ avail then
        (.ok best_app, q.eraseIdx best_i)
      else
        if h : best_i < (i0 :: index').length then
          adaptiveLoop est sA sW avail q ((i0 :: index').eraseIdx best_i)
        else (.error .fatal, q)
    else (.error .fatal, q)
  termination_by index => index.length
  decreasing_by
    simp only [List.length_eraseIdx]
    split
    · omega
    · omega

/-- Embeds `Adaptive.get_application_to_schedule` (lines 322-351):
query `applications(by_name=True)` and `available_containers()`, build
`index = range(min(jobs_to_peek, len(queue)))`, increment the peek
window's waiting-times when `scheduled_apps_num > 2`, then run the
selection loop. -/
def Adaptive.get_application_to_schedule
    (est : List App → List App → List Nat → Nat) (s : SchedState) :
    Except SchedErr App × List App :=
  let n1 := min s.jobs_to_peek s.queue.length
  let q := if s.scheduled_apps_num > 2 then incWindow s.queue n1 else s.queue
  adaptiveLoop est s.cluster.running s.cluster.runningW
    s.cluster.available_containers q (List.range n1)

/-! ## GroupAdaptive selection
(`GroupAdaptive.get_application_to_schedule`, lines 415-479) -/

/-- Embeds `np.random.randint(0, n)` with an explicit RNG stream `rand`
and draw counter `t`: `ValueError` when the range is empty. -/
def npRandint (rand : Nat → Nat) (t : Nat) (n : Nat) :
    Except SchedErr Nat :=
  if n = 0 then .error .fatal else .ok (rand t % n)

/-- Embeds the `while len(index) > 0` loop of lines 429-479.
If the estimator's `best_group_to_schedule` is `-1`, pop a uniformly
drawn position of `range(len(index))` from the *queue* and return it.
Otherwise gather the window positions whose app's group matches, draw one
uniformly (`ValueError` on an empty list), fit-check `queue[best_i]`,
pop it on success, and on failure `index.pop(best_i)` (position pop,
IndexError if out of range). -/
def groupALoop (est : List App → List App → List Nat → Int × Int)
    (groupIndexes : String → Int) (rand : Nat → Nat)
    (sA : List App) (sW : List Nat) (avail : Nat) (q : List App) :
    List Nat → Nat → Except SchedErr (App × Int) × List App
  | [], _ => (.error .noApp, q)
  | i0 :: index', t =>
    let bg := est sA ((i0 :: index').map (fun i => q.getD i dummyApp)) sW
    if bg.1 = -1 then
      match npRandint rand t (i0 :: index').length with
      | .error _ => (.error .fatal, q)
      | .ok r =>
        if r < q.length then (.ok (q.getD r dummyApp, bg.2), q.eraseIdx r)
        else (.error .fatal, q)
    else
      let lbji := (i0 :: index').filter
        (fun i => groupIndexes (q.getD i dummyApp).name = bg.1)
      match npRandint rand t lbji.length with
      | .error _ => (.error .fatal, q)
      | .ok r =>
        let best_i := lbji.getD r 0
        if best_i < q.length then
          let best_app := q.getD best_i dummyApp
          if best_app.n_containers ≤ avail then
            (.ok (best_app, bg.2), q.eraseIdx best_i)
          else
            if h : best_i < (i0 :: index').length then
              groupALoop est groupIndexes rand sA sW avail q
                ((i0 :: index').eraseIdx best_i) (t + 1)
            else (.error .fatal, q)
        else (.error .fatal, q)
  termination_by index _ => index.length
  decreasing_by
    simp only [List.length_eraseIdx]
    split
    · omega
    · omega

/-- Embeds `GroupAdaptive.get_application_to_schedule` (lines 415-479):
query `applications(with_full_nodes=False, by_name=True)` and
`available_containers()`, increment the peek window's waiting-times when
`scheduled_apps_num > 2`, then run the group selection loop. -/
def GroupAdaptive.get_application_to_schedule
    (est : List App → List App → List Nat → Int × Int)
    (groupIndexes : String → Int) (rand : Nat → Nat) (s : SchedState) :
    Except SchedErr (App × Int) × List App :=
  let n1 := min s.jobs_to_peek s.queue.length
  let q := if s.scheduled_apps_num > 2 then incWindow s.queue n1 else s.queue
  groupALoop est groupIndexes rand s.cluster.runningNonFull
    s.cluster.runningNonFullW s.cluster.available_containers q
    (List.range n1) 0

/-! ## GroupAdaptiveExtend selection
(`GroupAdaptiveExtend.get_application_to_schedule`, lines 556-639) -/

/-- One step of the combined increment-and-late-tracking loop of lines
569-575: increment `queue[i]`, then, when its (new) waiting-time exceeds
`waiting_limit` and beats the current late candidate strictly, record `i`
as the late index. -/
def incLateStep (limit : Int) (acc : List App × Option Nat) (i : Nat) :
    List App × Option Nat :=
  let q := acc.1
  let q1 := q.set i (appInc (q.getD i dummyApp))
  let w := (q1.getD i dummyApp).waiting_time
  if (w : Int) > limit then
    match acc.2 with
    | none => (q1, some i)
    | some j =>
      if w > (q1.getD j dummyApp).waiting_time then (q1, some i)
      else (q1, some j)
  else (q1, acc.2)

/-- Embeds the `for i in index` loop of lines 569-575 over
`index = range(n)`. -/
def incLatePhase (limit : Int) (q : List App) (n : Nat) :
    List App × Option Nat :=
  (List.range n).foldl (incLateStep limit) (q, none)

/-- Embeds `np.random.choice(np.arange(n), p=p)` (line 612):
`ValueError` when the candidate list is empty or the probabilities are
malformed; otherwise a drawn index below `n`. -/
def npChoice (rand : Nat → Nat) (t : Nat) (p : List ℚ) (n : Nat) :
    Except SchedErr Nat :=
  if n = 0 then .error .fatal
  else if p.length ≠ n ∨ p.sum ≠ 1 then .error .fatal
  else .ok (rand t % n)

/-- Embeds the `while len(index) > 0` loop of lines 581-639: as in
`groupALoop`, but the draw among the best-group candidates is the
waiting-time-weighted `np.random.choice` over
`get_waiting_time_based_probability(list_best_jobs)`. -/
def groupELoop (est : List App → List App → List Nat → Int × Int)
    (groupIndexes : String → Int) (rand : Nat → Nat)
    (sA : List App) (sW : List Nat) (avail : Nat) (q : List App) :
    List Nat → Nat → Except SchedErr (App × Int) × List App
  | [], _ => (.error .noApp, q)
  | i0 :: index', t =>
    let bg := est sA ((i0 :: index').map (fun i => q.getD i dummyApp)) sW
    if bg.1 = -1 then
      match npRandint rand t (i0 :: index').length with
      | .error _ => (.error .fatal, q)
      | .ok r =>
        if r < q.length then (.ok (q.getD r dummyApp, bg.2), q.eraseIdx r)
        else (.error .fatal, q)
    else
      let lbji := (i0 :: index').filter
        (fun i => groupIndexes (q.getD i dummyApp).name = bg.1)
      let list_best_jobs := lbji.map (fun i => q.getD i dummyApp)
      let probs := get_waiting_time_based_probability list_best_jobs
      match npChoice rand t probs list_best_jobs.length with
      | .error _ => (.error .fatal, q)
      | .ok r =>
        let best_i := lbji.getD r 0
        if best_i < q.length then
          let best_app := q.getD best_i dummyApp
          if best_app.n_containers ≤ avail then
            (.ok (best_app, bg.2), q.eraseIdx best_i)
          else
            if h : best_i < (i0 :: index').length then
              groupELoop est groupIndexes rand sA sW avail q
                ((i0 :: index').eraseIdx best_i) (t + 1)
            else (.error .fatal, q)
        else (.error .fatal, q)
  termination_by index _ => index.length
  decreasing_by
    simp only [List.length_eraseIdx]
    split
    · omega
    · omega

/-- Embeds `GroupAdaptiveExtend.get_application_to_schedule`
(lines 556-639).  When `scheduled_apps_num > 2`, the increment loop also
tracks the app whose waiting-time exceeds `waiting_limit` most; if one
exists it is popped and returned with
`groupIndexes[scheduled_apps[0].name]` — the pop happens before
`scheduled_apps[0]` is read, so an empty scheduled list crashes *after*
the pop.  Otherwise the weighted selection loop runs. -/
def GroupAdaptiveExtend.get_application_to_schedule
    (est : List App → List App → List Nat → Int × Int)
    (groupIndexes : String → Int) (rand : Nat → Nat) (s : SchedState) :
    Except SchedErr (App × Int) × List App :=
  let sA := s.cluster.runningNonFull
  let avail := s.cluster.available_containers
  let n1 := min s.jobs_to_peek s.queue.length
  if s.scheduled_apps_num > 2 then
    let ql := incLatePhase s.waiting_limit s.queue n1
    match ql.2 with
    | some j =>
      match sA with
      | [] => (.error .fatal, ql.1.eraseIdx j)
      | a0 :: _ =>
        (.ok (ql.1.getD j dummyApp, groupIndexes a0.name), ql.1.eraseIdx j)
    | none =>
      groupELoop est groupIndexes rand sA s.cluster.runningNonFullW avail
        ql.1 (List.range n1) 0
  else
    groupELoop est groupIndexes rand sA s.cluster.runningNonFullW avail
      s.queue (List.range n1) 0

/-! ## Group placement (`place_containers_with_group`,
GroupAdaptive lines 375-405 and the textually identical
GroupAdaptiveExtend lines 507-537; one embedding serves both) -/

/-- Embeds the `for address, node in self.cluster.nodes.items()` loops of
lines 385-387 / 401-405: call `_place(app, node, 4)` on every node whose
address satisfies `pred`, threading the app (whose placed-count grows). -/
def placeOnNodes (pred : String → Bool) (app : App) :
    List (String × Node) → App × List (String × Node)
  | [] => (app, [])
  | (addr, nd) :: rest =>
    if pred addr then
      let an := placeCore app addr nd 4
      let ar := placeOnNodes pred an.1 rest
      (ar.1, (addr, an.2.1) :: ar.2)
    else
      let ar := placeOnNodes pred app rest
      (ar.1, (addr, nd) :: ar.2)

/-- Embeds `place_containers_with_group(app, existing_group)` (lines
375-405 and 507-537).  `slotsIndex` embeds the static table
`JobGroupData.cluster_slots_index`, `groupIndexes` the static table
`JobGroupData.groupIndexes` (both read-only configuration,
`job_group_data.py` is not in the sources). -/
def place_containers_with_group (groupIndexes : String → Int)
    (slotsIndex : String → Nat) (app : App) (existing_group : Int)
    (c : Cluster) : App × Cluster :=
  if existing_group = -1 then
    let chosen_slot := if c.hasAppRunning then SLOT_2 else SLOT_1
    let app1 : App :=
      ⟨app.id, app.name, app.n_containers, app.waiting_time,
       some chosen_slot, app.nodes, app.node, app.tasks⟩
    let an := placeOnNodes (fun addr => slotsIndex addr = chosen_slot)
      app1 c.nodes
    (an.1, ⟨an.2, c.running, c.runningW, c.runningNonFull,
            c.runningNonFullW, c.hasAppRunning⟩)
  else
    match c.runningNonFull.find?
        (fun r => groupIndexes r.name = existing_group) with
    | none => (app, c)
    | some co =>
      let app1 : App :=
        ⟨app.id, app.name, app.n_containers, app.waiting_time,
         co.cluster_slot, app.nodes, app.node, app.tasks⟩
      let an := placeOnNodes (fun addr => addr ∈ co.nodes) app1 c.nodes
      (an.1, ⟨an.2, c.running, c.runningW, c.runningNonFull,
              c.runningNonFullW, c.hasAppRunning⟩)

/-! ## Admission (`schedule_application`: base lines 86-96, GroupAdaptive
lines 361-373, GroupAdaptiveExtend lines 493-505 — the two group versions
are textually identical, one template serves both) -/

/-- Embeds the base `Scheduler.schedule_application` (lines 86-96),
shared by `Random`, `RoundRobin` and `Adaptive`; `getApp` is the
(policy-specific) `get_application_to_schedule`, `placeC` the
(policy-specific) `place_containers`.  The selection mutates only the
queue; the cluster is untouched between the two `available_containers()`
reads, so a single read is faithful. -/
def schedule_application
    (getApp : SchedState → Except SchedErr App × List App)
    (placeC : App → Cluster → App × Cluster) (s : SchedState) :
    Except SchedErr App × SchedState :=
  if s.cluster.available_containers = 0 then (.error .noApp, s)
  else
    match getApp s with
    | (.error e, q1) =>
      (.error e, ⟨q1, s.cluster, s.jobs_to_peek, s.scheduled_apps_num,
                  s.waiting_limit⟩)
    | (.ok app, q1) =>
      if app.n_containers > s.cluster.available_containers then
        (.error .noApp, ⟨app :: q1, s.cluster, s.jobs_to_peek,
                         s.scheduled_apps_num, s.waiting_limit⟩)
      else
        let ac := placeC app s.cluster
        (.ok ac.1, ⟨q1, ac.2, s.jobs_to_peek, s.scheduled_apps_num,
                    s.waiting_limit⟩)

/-- Embeds the group `schedule_application` (lines 361-373 / 493-505):
the selection returns an `(app, existing_group)` pair and the placement
is `place_containers_with_group`. -/
def group_schedule_application
    (getApp : SchedState → Except SchedErr (App × Int) × List App)
    (groupIndexes : String → Int) (slotsIndex : String → Nat)
    (s : SchedState) : Except SchedErr App × SchedState :=
  if s.cluster.available_containers = 0 then (.error .noApp, s)
  else
    match getApp s with
    | (.error e, q1) =>
      (.error e, ⟨q1, s.cluster, s.jobs_to_peek, s.scheduled_apps_num,
                  s.waiting_limit⟩)
    | (.ok ag, q1) =>
      if ag.1.n_containers > s.cluster.available_containers then
        (.error .noApp, ⟨ag.1 :: q1, s.cluster, s.jobs_to_peek,
                         s.scheduled_apps_num, s.waiting_limit⟩)
      else
        let ac := place_containers_with_group groupIndexes slotsIndex
          ag.1 ag.2 s.cluster
        (.ok ac.1, ⟨q1, ac.2, s.jobs_to_peek, s.scheduled_apps_num,
                    s.waiting_limit⟩)

/-- `GroupAdaptive.schedule_application` (lines 361-373). -/
def GroupAdaptive.schedule_application
    (est : List App → List App → List Nat → Int × Int)
    (groupIndexes : String → Int) (slotsIndex : String → Nat)
    (rand : Nat → Nat) (s : SchedState) :
    Except SchedErr App × SchedState :=
  group_schedule_application
    (GroupAdaptive.get_application_to_schedule est groupIndexes rand)
    groupIndexes slotsIndex s

/-- `GroupAdaptiveExtend.schedule_application` (lines 493-505). -/
def GroupAdaptiveExtend.schedule_application
    (est : List App → List App → List Nat → Int × Int)
    (groupIndexes : String → Int) (slotsIndex : String → Nat)
    (rand : Nat → Nat) (s : SchedState) :
    Except SchedErr App × SchedState :=
  group_schedule_application
    (GroupAdaptiveExtend.get_application_to_schedule est groupIndexes rand)
    groupIndexes slotsIndex s

/-! ## Derived notions used by the statements -/

/-- The application identities of a queue, in order (Python object
identity; the "same applications in the same order" reading). -/
def idsOf (q : List App) : List Nat := q.map (fun a => a.id)

/-- The queue as each adaptive selection sees it after the conditional
waiting-time increment of the peek window (`min(jobs_to_peek,
len(queue))` apps, incremented only when `scheduled_apps_num > 2`). -/
def preQueue (s : SchedState) : List App :=
  if s.scheduled_apps_num > 2 then
    incWindow s.queue (min s.jobs_to_peek s.queue.length)
  else s.queue

/-- The amended admission contract for one `schedule_application` run
from state `s` with outcome `r`: a returned app fits within the
availability measured at the admission check (before placement), and a
`NoApplicationCanBeScheduled` raise leaves the cluster unchanged and the
queue holding the same applications — in order, except that a selected
app that failed the availability re-check sits prepended at the head
while its old position is gone. -/
def admissionDichotomy (s : SchedState)
    (r : Except SchedErr App × SchedState) : Prop :=
  (∀ app, r.1 = .ok app →
    app.n_containers ≤ s.cluster.available_containers) ∧
  (r.1 = .error .noApp →
    r.2.cluster = s.cluster ∧
    (idsOf r.2.queue = idsOf s.queue ∨
      ∃ i, i < s.queue.length ∧
        idsOf r.2.queue =
          (s.queue.getD i dummyApp).id :: (idsOf s.queue).eraseIdx i))

/-! ## Concrete data for the counterexamples and witnesses -/

/-- Queued app "A": 9 containers. -/
def appA : App := ⟨0, "A", 9, 0, none, [], none, []⟩

/-- Queued app "B": 9 containers. -/
def appB : App := ⟨1, "B", 9, 0, none, [], none, []⟩

/-- Queued app "C": 4 containers. -/
def appC : App := ⟨2, "C", 4, 0, none, [], none, []⟩

/-- Queued app "D": 4 containers, 4 unbound tasks. -/
def appD : App := ⟨3, "D", 4, 0, none, [], none, [none, none, none, none]⟩

/-- Queued app "E": 4 containers. -/
def appE : App := ⟨4, "E", 4, 0, none, [], none, []⟩

/-- An estimator that picks candidate 0 among three candidates,
candidate 1 among two, candidate 0 otherwise. -/
def estC3 : List App → List App → List Nat → Nat :=
  fun _ cands _ =>
    if cands.length ≥ 3 then 0 else if cands.length = 2 then 1 else 0

/-- A group estimator answering "no app is scheduling" (`(-1, -1)`). -/
def estNeg : List App → List App → List Nat → Int × Int :=
  fun _ _ _ => (-1, -1)

/-- A group estimator selecting group 5 to schedule, group 7 to co-locate
with. -/
def estG5 : List App → List App → List Nat → Int × Int :=
  fun _ _ _ => (5, 7)

/-- A group table putting every app name in group 0. -/
def gIdx0 : String → Int := fun _ => 0

/-- A slot table putting every node address in `SLOT_1`. -/
def slotsIdx1 : String → Nat := fun _ => SLOT_1

/-- One empty node of capacity 4. -/
def clusterA : Cluster := ⟨[("n1", ⟨4, []⟩)], [], [], [], [], false⟩

/-- One node of capacity 4 with two slots taken (2 available). -/
def clusterB : Cluster :=
  ⟨[("n1", ⟨4, [(9, 0), (9, 1)]⟩)], [], [], [], [], true⟩

/-- State: queue `[D]`, empty node, fresh run. -/
def stA : SchedState := ⟨[appD], clusterA, 7, 0, -1⟩

/-- State: queue `[D, E]`, 2 available containers. -/
def stB : SchedState := ⟨[appD, appE], clusterB, 7, 0, -1⟩

/-- A small queued app with the given id and waiting-time. -/
def mkW (i w : Nat) : App := ⟨i, "W", 4, w, none, [], none, []⟩

/-- State for the fairness override: fourth round
(`scheduled_apps_num = 3`), `waiting_limit = 2`, queue waiting-times
`[1, 3, 3]`, one running app. -/
def stC : SchedState :=
  ⟨[mkW 0 1, mkW 1 3, mkW 2 3],
   ⟨[("n1", ⟨4, []⟩)], [], [], [mkW 9 0], [], true⟩, 7, 3, 2⟩

/-- State: queue `[D, E]`, empty node, fresh run. -/
def stD : SchedState := ⟨[appD, appE], clusterA, 7, 0, -1⟩

/-- App with two containers and two unbound tasks, for the `_place`
return-value counterexample. -/
def appT : App := ⟨5, "T", 2, 0, none, [], none, [none, none]⟩

/-- State for the Adaptive candidate/queue index confusion: queue
`[A, B, C]`, `jobs_to_peek = 3`, 4 free slots. -/
def stE : SchedState := ⟨[appA, appB, appC], clusterA, 3, 0, -1⟩

/-! ## Helper lemmas -/

theorem incWindow_length (q : List App) (n : Nat) :
    (incWindow q n).length = q.length := by
  induction q generalizing n with
  | nil => cases n <;> rfl
  | cons a q ih =>
    cases n with
    | zero => rfl
    | succ m => simpa [incWindow] using ih m

theorem incWindow_getD (q : List App) (n i : Nat) :
    (incWindow q n).getD i dummyApp =
      if i < n ∧ i < q.length then appInc (q.getD i dummyApp)
      else q.getD i dummyApp := by
  induction q generalizing n i with
  | nil => cases n <;> simp [incWindow]
  | cons a q ih =>
    cases n with
    | zero => simp [incWindow]
    | succ m =>
      cases i with
      | zero => simp [incWindow]
      | succ j =>
        simp only [incWindow, List.getD_cons_succ, List.length_cons]
        rw [ih]
        by_cases hc : j < m ∧ j < q.length
        · rw [if_pos hc, if_pos (by omega)]
        · rw [if_neg hc, if_neg (by omega)]

theorem incWindow_map_id (q : List App) (n : Nat) :
    idsOf (incWindow q n) = idsOf q := by
  induction q generalizing n with
  | nil => cases n <;> rfl
  | cons a q ih =>
    cases n with
    | zero => rfl
    | succ m => simpa [incWindow, idsOf, appInc] using ih m

theorem incWindow_zero (q : List App) : incWindow q 0 = q := by
  cases q <;> rfl

theorem incWindow_mem (q : List App) (n : Nat) (b : App)
    (hb : b ∈ incWindow q n) :
    ∃ a ∈ q, a.id = b.id ∧ a.waiting_time ≤ b.waiting_time := by
  induction q generalizing n with
  | nil => cases n <;> simp_all [incWindow]
  | cons a q ih =>
    cases n with
    | zero =>
      exact ⟨b, by simpa [incWindow] using hb, rfl, le_refl _⟩
    | succ m =>
      simp only [incWindow, List.mem_cons] at hb
      rcases hb with h | h
      · exact ⟨a, List.mem_cons_self a q, by simp [h, appInc],
          by simp [h, appInc]⟩
      · obtain ⟨x, hx, hid, hw⟩ := ih m h
        exact ⟨x, List.mem_cons_of_mem a hx, hid, hw⟩

theorem eraseIdx_map {α β : Type} (f : α → β) (l : List α) (i : Nat) :
    (l.eraseIdx i).map f = (l.map f).eraseIdx i := by
  induction l generalizing i with
  | nil => simp
  | cons a l ih =>
    cases i with
    | zero => simp
    | succ j => simp [List.eraseIdx_cons_succ, ih]

theorem preQueue_length (s : SchedState) :
    (preQueue s).length = s.queue.length := by
  unfold preQueue
  split
  · exact incWindow_length _ _
  · rfl

theorem preQueue_ids (s : SchedState) : idsOf (preQueue s) = idsOf s.queue := by
  unfold preQueue
  split
  · exact incWindow_map_id _ _
  · rfl

theorem preQueue_getD_id (s : SchedState) (i : Nat) :
    ((preQueue s).getD i dummyApp).id = (s.queue.getD i dummyApp).id := by
  unfold preQueue
  split
  · rw [incWindow_getD]
    split
    · rfl
    · rfl
  · rfl

theorem preQueue_mem (s : SchedState) (b : App) (hb : b ∈ preQueue s) :
    ∃ a ∈ s.queue, a.id = b.id ∧ a.waiting_time ≤ b.waiting_time := by
  unfold preQueue at hb
  split at hb
  · exact incWindow_mem _ _ _ hb
  · exact ⟨b, hb, rfl, le_refl _⟩

theorem incWindow_set_succ (q : List App) (n : Nat) (hn : n < q.length) :
    (incWindow q n).set n (appInc (q.getD n dummyApp)) =
      incWindow q (n + 1) := by
  induction q generalizing n with
  | nil => simp at hn
  | cons a q ih =>
    cases n with
    | zero => simp [incWindow, incWindow_zero]
    | succ m =>
      simp only [incWindow, List.set_cons_succ, List.getD_cons_succ]
      rw [ih m (by simpa using hn)]

theorem incLatePhase_succ (limit : Int) (q : List App) (n : Nat) :
    incLatePhase limit q (n + 1) =
      incLateStep limit (incLatePhase limit q n) n := by
  simp [incLatePhase, List.range_succ]

theorem incLateStep_fst (limit : Int) (acc : List App × Option Nat)
    (i : Nat) :
    (incLateStep limit acc i).1 =
      acc.1.set i (appInc (acc.1.getD i dummyApp)) := by
  unfold incLateStep
  dsimp only
  split <;>
    first
      | rfl
      | (split <;> first
          | rfl
          | (split <;> rfl))

theorem incLatePhase_fst (limit : Int) (q : List App) (n : Nat)
    (hn : n ≤ q.length) :
    (incLatePhase limit q n).1 = incWindow q n := by
  induction n with
  | zero =>
    cases q <;> rfl
  | succ m ih =>
    have hm : m ≤ q.length := Nat.le_of_succ_le hn
    have hlt : m < q.length := hn
    rw [incLatePhase_succ, incLateStep_fst, ih hm]
    have hget : (incWindow q m).getD m dummyApp = q.getD m dummyApp := by
      rw [incWindow_getD]
      simp
    rw [hget, incWindow_set_succ q m hlt]

theorem incLatePhase_snd (limit : Int) (q : List App) (n : Nat)
    (hn : n ≤ q.length) :
    ((incLatePhase limit q n).2 = none →
      ∀ i < n, ((q.getD i dummyApp).waiting_time + 1 : Int) ≤ limit) ∧
    (∀ j, (incLatePhase limit q n).2 = some j →
      j < n ∧ ((q.getD j dummyApp).waiting_time + 1 : Int) > limit ∧
        ∀ i < n, (q.getD i dummyApp).waiting_time ≤
          (q.getD j dummyApp).waiting_time) := by
  induction n with
  | zero =>
    constructor
    · intro _ i hi
      omega
    · intro j hj
      cases q <;> simp [incLatePhase] at hj
  | succ m ih =>
    have hlt : m < q.length := hn
    have hm : m ≤ q.length := Nat.le_of_lt hlt
    have ihm := ih hm
    have hfst : (incLatePhase limit q m).1 = incWindow q m :=
      incLatePhase_fst limit q m hm
    have hq1 : (incLatePhase limit q m).1.set m
        (appInc ((incLatePhase limit q m).1.getD m dummyApp)) =
        incWindow q (m + 1) := by
      rw [hfst, incWindow_getD]
      simp only [Nat.lt_irrefl, false_and, if_false]
      exact incWindow_set_succ q m hlt
    have hwm : ((incWindow q (m + 1)).getD m dummyApp).waiting_time =
        (q.getD m dummyApp).waiting_time + 1 := by
      rw [incWindow_getD]
      simp [hlt, appInc, Nat.lt_succ_self]
    have hwj : ∀ j, j < m →
        ((incWindow q (m + 1)).getD j dummyApp).waiting_time =
          (q.getD j dummyApp).waiting_time + 1 := by
      intro j hj
      rw [incWindow_getD]
      have : j < q.length := Nat.lt_of_lt_of_le hj hm
      simp [appInc, this, Nat.lt_succ_of_lt hj]
    rw [incLatePhase_succ]
    unfold incLateStep
    dsimp only
    rw [hq1, hwm]
    push_cast
    rcases hacc : (incLatePhase limit q m).2 with _ | j0
    · have hnone := ihm.1 hacc
      by_cases hw : ((q.getD m dummyApp).waiting_time : Int) + 1 > limit
      · rw [if_pos hw]
        dsimp only
        constructor
        · intro h
          simp at h
        · intro j hj
          simp only [Option.some.injEq] at hj
          subst hj
          refine ⟨Nat.lt_succ_self m, hw, ?_⟩
          intro i hi
          rcases Nat.lt_succ_iff_lt_or_eq.mp hi with h | h
          · have := hnone i h
            omega
          · subst h
            exact le_refl _
      · rw [if_neg hw]
        dsimp only
        constructor
        · intro _ i hi
          rcases Nat.lt_succ_iff_lt_or_eq.mp hi with h | h
          · exact hnone i h
          · subst h
            omega
        · intro j hj
          simp at hj
    · obtain ⟨hj0m, hj0lim, hj0max⟩ := ihm.2 j0 hacc
      have hgj0 : ((incWindow q (m + 1)).getD j0 dummyApp).waiting_time =
          (q.getD j0 dummyApp).waiting_time + 1 := hwj j0 hj0m
      by_cases hw : ((q.getD m dummyApp).waiting_time : Int) + 1 > limit
      · rw [if_pos hw]
        dsimp only
        rw [hgj0]
        by_cases hbeat : (q.getD m dummyApp).waiting_time + 1 >
            (q.getD j0 dummyApp).waiting_time + 1
        · rw [if_pos hbeat]
          constructor
          · intro h
            simp at h
          · intro j hj
            simp only [Option.some.injEq] at hj
            subst hj
            refine ⟨Nat.lt_succ_self m, hw, ?_⟩
            intro i hi
            rcases Nat.lt_succ_iff_lt_or_eq.mp hi with h | h
            · have := hj0max i h
              omega
            · subst h
              exact le_refl _
        · rw [if_neg hbeat]
          constructor
          · intro h
            simp at h
          · intro j hj
            simp only [Option.some.injEq] at hj
            subst hj
            refine ⟨Nat.lt_succ_of_lt hj0m, hj0lim, ?_⟩
            intro i hi
            rcases Nat.lt_succ_iff_lt_or_eq.mp hi with h | h
            · exact hj0max i h
            · subst h
              omega
      · rw [if_neg hw]
        dsimp only
        constructor
        · intro h
          simp at h
        · intro j hj
          simp only [Option.some.injEq] at hj
          subst hj
          refine ⟨Nat.lt_succ_of_lt hj0m, hj0lim, ?_⟩
          intro i hi
          rcases Nat.lt_succ_iff_lt_or_eq.mp hi with h | h
          · exact hj0max i h
          · subst h
            omega

theorem adaptiveLoop_shape (est : List App → List App → List Nat → Nat)
    (sA : List App) (sW : List Nat) (avail : Nat) (q : List App)
    (index : List Nat) :
    (∀ app, (adaptiveLoop est sA sW avail q index).1 = .ok app →
      ∃ i, i < q.length ∧ app = q.getD i dummyApp ∧
        (adaptiveLoop est sA sW avail q index).2 = q.eraseIdx i) ∧
    (∀ e, (adaptiveLoop est sA sW avail q index).1 = .error e →
      (adaptiveLoop est sA sW avail q index).2 = q) := by
  suffices H : ∀ (L : Nat) (idx : List Nat), idx.length = L →
      (∀ app, (adaptiveLoop est sA sW avail q idx).1 = .ok app →
        ∃ i, i < q.length ∧ app = q.getD i dummyApp ∧
          (adaptiveLoop est sA sW avail q idx).2 = q.eraseIdx i) ∧
      (∀ e, (adaptiveLoop est sA sW avail q idx).1 = .error e →
        (adaptiveLoop est sA sW avail q idx).2 = q) from
    H index.length index rfl
  intro L
  induction L using Nat.strong_induction_on with
  | _ L ih =>
  intro index hL
  cases index with
  | nil =>
    constructor
    · intro app h
      simp [adaptiveLoop] at h
    · intro e _
      simp [adaptiveLoop]
  | cons i0 index' =>
    simp only [adaptiveLoop]
    split
    · split
      · constructor
        · intro app h
          simp only [Except.ok.injEq] at h
          subst h
          exact ⟨_, by assumption, rfl, rfl⟩
        · intro e h
          simp at h
      · split
        · rename_i h1 h2 h3
          have hlen : ((i0 :: index').eraseIdx
              (est sA ((i0 :: index').map (fun i => q.getD i dummyApp)) sW)
              ).length < L := by
            rw [List.length_eraseIdx]
            rw [if_pos h3]
            omega
          exact ih _ hlen _ rfl
        · constructor
          · intro app h
            simp at h
          · intro e _
            rfl
    · constructor
      · intro app h
        simp at h
      · intro e _
        rfl

theorem groupALoop_shape (est : List App → List App → List Nat → Int × Int)
    (groupIndexes : String → Int) (rand : Nat → Nat) (sA : List App)
    (sW : List Nat) (avail : Nat) (q : List App) (index : List Nat)
    (t : Nat) :
    (∀ ag, (groupALoop est groupIndexes rand sA sW avail q index t).1 =
        .ok ag →
      ∃ i, i < q.length ∧ ag.1 = q.getD i dummyApp ∧
        (groupALoop est groupIndexes rand sA sW avail q index t).2 =
          q.eraseIdx i) ∧
    (∀ e, (groupALoop est groupIndexes rand sA sW avail q index t).1 =
        .error e →
      (groupALoop est groupIndexes rand sA sW avail q index t).2 = q) := by
  suffices H : ∀ (L : Nat) (idx : List Nat) (t : Nat), idx.length = L →
      (∀ ag, (groupALoop est groupIndexes rand sA sW avail q idx t).1 =
          .ok ag →
        ∃ i, i < q.length ∧ ag.1 = q.getD i dummyApp ∧
          (groupALoop est groupIndexes rand sA sW avail q idx t).2 =
            q.eraseIdx i) ∧
      (∀ e, (groupALoop est groupIndexes rand sA sW avail q idx t).1 =
          .error e →
        (groupALoop est groupIndexes rand sA sW avail q idx t).2 = q) from
    H index.length index t rfl
  intro L
  induction L using Nat.strong_induction_on with
  | _ L ih =>
  intro index t hL
  cases index with
  | nil =>
    constructor
    · intro ag h
      simp [groupALoop] at h
    · intro e _
      simp [groupALoop]
  | cons i0 index' =>
    simp only [groupALoop]
    split
    · split
      · constructor
        · intro ag h
          simp at h
        · intro e _
          rfl
      · split
        · constructor
          · intro ag h
            simp only [Except.ok.injEq] at h
            subst h
            exact ⟨_, by assumption, rfl, rfl⟩
          · intro e h
            simp at h
        · constructor
          · intro ag h
            simp at h
          · intro e _
            rfl
    · split
      · constructor
        · intro ag h
          simp at h
        · intro e _
          rfl
      · split
        · split
          · constructor
            · intro ag h
              simp only [Except.ok.injEq] at h
              subst h
              exact ⟨_, by assumption, rfl, rfl⟩
            · intro e h
              simp at h
          · split
            · rename_i h3
              refine ih _ ?_ _ _ rfl
              rw [List.length_eraseIdx, if_pos h3]
              omega
            · constructor
              · intro ag h
                simp at h
              · intro e _
                rfl
        · constructor
          · intro ag h
            simp at h
          · intro e _
            rfl

theorem groupELoop_shape (est : List App → List App → List Nat → Int × Int)
    (groupIndexes : String → Int) (rand : Nat → Nat) (sA : List App)
    (sW : List Nat) (avail : Nat) (q : List App) (index : List Nat)
    (t : Nat) :
    (∀ ag, (groupELoop est groupIndexes rand sA sW avail q index t).1 =
        .ok ag →
      ∃ i, i < q.length ∧ ag.1 = q.getD i dummyApp ∧
        (groupELoop est groupIndexes rand sA sW avail q index t).2 =
          q.eraseIdx i) ∧
    (∀ e, (groupELoop est groupIndexes rand sA sW avail q index t).1 =
        .error e →
      (groupELoop est groupIndexes rand sA sW avail q index t).2 = q) := by
  suffices H : ∀ (L : Nat) (idx : List Nat) (t : Nat), idx.length = L →
      (∀ ag, (groupELoop est groupIndexes rand sA sW avail q idx t).1 =
          .ok ag →
        ∃ i, i < q.length ∧ ag.1 = q.getD i dummyApp ∧
          (groupELoop est groupIndexes rand sA sW avail q idx t).2 =
            q.eraseIdx i) ∧
      (∀ e, (groupELoop est groupIndexes rand sA sW avail q idx t).1 =
          .error e →
        (groupELoop est groupIndexes rand sA sW avail q idx t).2 = q) from
    H index.length index t rfl
  intro L
  induction L using Nat.strong_induction_on with
  | _ L ih =>
  intro index t hL
  cases index with
  | nil =>
    constructor
    · intro ag h
      simp [groupELoop] at h
    · intro e _
      simp [groupELoop]
  | cons i0 index' =>
    simp only [groupELoop]
    split
    · split
      · constructor
        · intro ag h
          simp at h
        · intro e _
          rfl
      · split
        · constructor
          · intro ag h
            simp only [Except.ok.injEq] at h
            subst h
            exact ⟨_, by assumption, rfl, rfl⟩
          · intro e h
            simp at h
        · constructor
          · intro ag h
            simp at h
          · intro e _
            rfl
    · split
      · constructor
        · intro ag h
          simp at h
        · intro e _
          rfl
      · split
        · split
          · constructor
            · intro ag h
              simp only [Except.ok.injEq] at h
              subst h
              exact ⟨_, by assumption, rfl, rfl⟩
            · intro e h
              simp at h
          · split
            · rename_i h3
              refine ih _ ?_ _ _ rfl
              rw [List.length_eraseIdx, if_pos h3]
              omega
            · constructor
              · intro ag h
                simp at h
              · intro e _
                rfl
        · constructor
          · intro ag h
            simp at h
          · intro e _
            rfl

theorem adaptiveGet_shape (est : List App → List App → List Nat → Nat)
    (s : SchedState) :
    (∀ app, (Adaptive.get_application_to_schedule est s).1 = .ok app →
      ∃ i, i < (preQueue s).length ∧ app = (preQueue s).getD i dummyApp ∧
        (Adaptive.get_application_to_schedule est s).2 =
          (preQueue s).eraseIdx i) ∧
    (∀ e, (Adaptive.get_application_to_schedule est s).1 = .error e →
      (Adaptive.get_application_to_schedule est s).2 = preQueue s) :=
  adaptiveLoop_shape est s.cluster.running s.cluster.runningW
    s.cluster.available_containers (preQueue s)
    (List.range (min s.jobs_to_peek s.queue.length))

theorem groupAGet_shape
    (est : List App → List App → List Nat → Int × Int)
    (groupIndexes : String → Int) (rand : Nat → Nat) (s : SchedState) :
    (∀ ag,
      (GroupAdaptive.get_application_to_schedule est groupIndexes rand
        s).1 = .ok ag →
      ∃ i, i < (preQueue s).length ∧
        ag.1 = (preQueue s).getD i dummyApp ∧
        (GroupAdaptive.get_application_to_schedule est groupIndexes rand
          s).2 = (preQueue s).eraseIdx i) ∧
    (∀ e,
      (GroupAdaptive.get_application_to_schedule est groupIndexes rand
        s).1 = .error e →
      (GroupAdaptive.get_application_to_schedule est groupIndexes rand
        s).2 = preQueue s) :=
  groupALoop_shape est groupIndexes rand s.cluster.runningNonFull
    s.cluster.runningNonFullW s.cluster.available_containers (preQueue s)
    (List.range (min s.jobs_to_peek s.queue.length)) 0

theorem groupEGet_shape
    (est : List App → List App → List Nat → Int × Int)
    (groupIndexes : String → Int) (rand : Nat → Nat) (s : SchedState) :
    (∀ ag,
      (GroupAdaptiveExtend.get_application_to_schedule est groupIndexes
        rand s).1 = .ok ag →
      ∃ i, i < (preQueue s).length ∧
        ag.1 = (preQueue s).getD i dummyApp ∧
        (GroupAdaptiveExtend.get_application_to_schedule est groupIndexes
          rand s).2 = (preQueue s).eraseIdx i) ∧
    (∀ e,
      (GroupAdaptiveExtend.get_application_to_schedule est groupIndexes
        rand s).1 = .error e →
      (GroupAdaptiveExtend.get_application_to_schedule est groupIndexes
        rand s).2 = preQueue s ∨
      ∃ i, (GroupAdaptiveExtend.get_application_to_schedule est
        groupIndexes rand s).2 = (preQueue s).eraseIdx i) ∧
    ((GroupAdaptiveExtend.get_application_to_schedule est groupIndexes
        rand s).1 = .error .noApp →
      (GroupAdaptiveExtend.get_application_to_schedule est groupIndexes
        rand s).2 = preQueue s) := by
  have hmin : min s.jobs_to_peek s.queue.length ≤ s.queue.length :=
    Nat.min_le_right _ _
  unfold GroupAdaptiveExtend.get_application_to_schedule
  dsimp only
  by_cases hnum : s.scheduled_apps_num > 2
  · rw [if_pos hnum]
    have hfst : (incLatePhase s.waiting_limit s.queue
        (min s.jobs_to_peek s.queue.length)).1 = preQueue s := by
      rw [incLatePhase_fst s.waiting_limit s.queue _ hmin]
      unfold preQueue
      rw [if_pos hnum]
    rcases hsnd : (incLatePhase s.waiting_limit s.queue
        (min s.jobs_to_peek s.queue.length)).2 with _ | j
    · simp only [hsnd]
      rw [hfst]
      have hshape := groupELoop_shape est groupIndexes rand
        s.cluster.runningNonFull s.cluster.runningNonFullW
        s.cluster.available_containers (preQueue s)
        (List.range (min s.jobs_to_peek s.queue.length)) 0
      exact ⟨hshape.1, fun e he => Or.inl (hshape.2 e he),
        fun he => hshape.2 _ he⟩
    · have hj := ((incLatePhase_snd s.waiting_limit s.queue
        (min s.jobs_to_peek s.queue.length) hmin).2 j hsnd).1
      simp only [hsnd]
      rcases hsA : s.cluster.runningNonFull with _ | ⟨a0, rest⟩
      · refine ⟨?_, ?_, ?_⟩
        · intro ag h
          simp at h
        · intro e _
          exact Or.inr ⟨j, by rw [hfst]⟩
        · intro h
          simp at h
      · refine ⟨?_, ?_, ?_⟩
        · intro ag h
          simp only [Except.ok.injEq] at h
          subst h
          refine ⟨j, ?_, by rw [hfst], by rw [hfst]⟩
          rw [preQueue_length]
          exact Nat.lt_of_lt_of_le hj hmin
        · intro e h
          simp at h
        · intro h
          simp at h
  · rw [if_neg hnum]
    have hpre : preQueue s = s.queue := by
      unfold preQueue
      rw [if_neg hnum]
    rw [hpre]
    have hshape := groupELoop_shape est groupIndexes rand
      s.cluster.runningNonFull s.cluster.runningNonFullW
      s.cluster.available_containers s.queue
      (List.range (min s.jobs_to_peek s.queue.length)) 0
    exact ⟨hshape.1, fun e he => Or.inl (hshape.2 e he),
      fun he => hshape.2 _ he⟩

theorem placeOnNodes_n_containers (pred : String → Bool) (app : App)
    (nodes : List (String × Node)) :
    ((placeOnNodes pred app nodes).1).n_containers = app.n_containers := by
  induction nodes generalizing app with
  | nil => rfl
  | cons an rest ih =>
    unfold placeOnNodes
    dsimp only
    split
    · exact ih _
    · exact ih _

theorem place_with_group_n_containers (gi : String → Int)
    (si : String → Nat) (a : App) (g : Int) (c : Cluster) :
    ((place_containers_with_group gi si a g c).1).n_containers =
      a.n_containers := by
  unfold place_containers_with_group
  dsimp only
  split
  · exact placeOnNodes_n_containers _ _ _
  · split
    · rfl
    · exact placeOnNodes_n_containers _ _ _

theorem idsOf_eraseIdx (l : List App) (i : Nat) :
    idsOf (l.eraseIdx i) = (idsOf l).eraseIdx i :=
  eraseIdx_map _ l i

theorem schedule_application_dichotomy
    (getApp : SchedState → Except SchedErr App × List App)
    (placeC : App → Cluster → App × Cluster) (s : SchedState)
    (hplace : ∀ a c, (placeC a c).1.n_containers = a.n_containers)
    (hok : ∀ app, (getApp s).1 = .ok app →
      ∃ i, i < s.queue.length ∧ app.id = (s.queue.getD i dummyApp).id ∧
        idsOf (getApp s).2 = (idsOf s.queue).eraseIdx i)
    (herr : (getApp s).1 = .error .noApp →
      idsOf (getApp s).2 = idsOf s.queue) :
    admissionDichotomy s (schedule_application getApp placeC s) := by
  unfold schedule_application admissionDichotomy
  by_cases h0 : s.cluster.available_containers = 0
  · rw [if_pos h0]
    constructor
    · intro app h
      simp at h
    · intro _
      exact ⟨rfl, Or.inl rfl⟩
  · rw [if_neg h0]
    rcases hg : getApp s with ⟨r, q1⟩
    cases r with
    | error e =>
      dsimp only
      constructor
      · intro app h
        simp at h
      · intro hno
        simp only [Except.error.injEq] at hno
        subst hno
        refine ⟨rfl, Or.inl ?_⟩
        have := herr (by rw [hg])
        rw [hg] at this
        exact this
    | ok app =>
      dsimp only
      obtain ⟨i, hi, hid, hq1⟩ := hok app (by rw [hg])
      rw [hg] at hq1
      split
      · constructor
        · intro app' h
          simp at h
        · intro _
          refine ⟨rfl, Or.inr ⟨i, hi, ?_⟩⟩
          show app.id :: idsOf q1 = _
          rw [hq1, hid]
      · constructor
        · intro app' h
          simp only [Except.ok.injEq] at h
          subst h
          rw [hplace]
          omega
        · intro h
          simp at h

theorem group_schedule_application_dichotomy
    (getApp : SchedState → Except SchedErr (App × Int) × List App)
    (gi : String → Int) (si : String → Nat) (s : SchedState)
    (hok : ∀ ag, (getApp s).1 = .ok ag →
      ∃ i, i < s.queue.length ∧ ag.1.id = (s.queue.getD i dummyApp).id ∧
        idsOf (getApp s).2 = (idsOf s.queue).eraseIdx i)
    (herr : (getApp s).1 = .error .noApp →
      idsOf (getApp s).2 = idsOf s.queue) :
    admissionDichotomy s (group_schedule_application getApp gi si s) := by
  unfold group_schedule_application admissionDichotomy
  by_cases h0 : s.cluster.available_containers = 0
  · rw [if_pos h0]
    constructor
    · intro app h
      simp at h
    · intro _
      exact ⟨rfl, Or.inl rfl⟩
  · rw [if_neg h0]
    rcases hg : getApp s with ⟨r, q1⟩
    cases r with
    | error e =>
      dsimp only
      constructor
      · intro app h
        simp at h
      · intro hno
        simp only [Except.error.injEq] at hno
        subst hno
        refine ⟨rfl, Or.inl ?_⟩
        have := herr (by rw [hg])
        rw [hg] at this
        exact this
    | ok ag =>
      dsimp only
      obtain ⟨i, hi, hid, hq1⟩ := hok ag (by rw [hg])
      rw [hg] at hq1
      split
      · constructor
        · intro app' h
          simp at h
        · intro _
          refine ⟨rfl, Or.inr ⟨i, hi, ?_⟩⟩
          show ag.1.id :: idsOf q1 = _
          rw [hq1, hid]
      · constructor
        · intro app' h
          simp only [Except.ok.injEq] at h
          subst h
          rw [place_with_group_n_containers]
          omega
        · intro h
          simp at h

theorem baseGet_ids (avail : Nat) (q : List App) :
    (∀ app, (Scheduler.get_application_to_schedule avail q).1 = .ok app →
      ∃ i, i < q.length ∧ app.id = (q.getD i dummyApp).id ∧
        idsOf (Scheduler.get_application_to_schedule avail q).2 =
          (idsOf q).eraseIdx i) ∧
    ((Scheduler.get_application_to_schedule avail q).1 = .error .noApp →
      idsOf (Scheduler.get_application_to_schedule avail q).2 = idsOf q) := by
  cases q with
  | nil =>
    constructor
    · intro app h
      simp [Scheduler.get_application_to_schedule] at h
    · intro _
      rfl
  | cons a rest =>
    simp only [Scheduler.get_application_to_schedule]
    split
    · constructor
      · intro app h
        simp at h
      · intro _
        rfl
    · constructor
      · intro app h
        simp only [Except.ok.injEq] at h
        subst h
        exact ⟨0, by simp, rfl, rfl⟩
      · intro h
        simp at h

theorem adaptiveGet_ids (est : List App → List App → List Nat → Nat)
    (s : SchedState) :
    (∀ app, (Adaptive.get_application_to_schedule est s).1 = .ok app →
      ∃ i, i < s.queue.length ∧ app.id = (s.queue.getD i dummyApp).id ∧
        idsOf (Adaptive.get_application_to_schedule est s).2 =
          (idsOf s.queue).eraseIdx i) ∧
    ((Adaptive.get_application_to_schedule est s).1 = .error .noApp →
      idsOf (Adaptive.get_application_to_schedule est s).2 =
        idsOf s.queue) := by
  have hs := adaptiveGet_shape est s
  constructor
  · intro app h
    obtain ⟨i, hi, happ, hq⟩ := hs.1 app h
    refine ⟨i, ?_, ?_, ?_⟩
    · rw [← preQueue_length s]
      exact hi
    · rw [happ, preQueue_getD_id]
    · rw [hq, idsOf_eraseIdx, preQueue_ids]
  · intro h
    rw [hs.2 _ h, preQueue_ids]

theorem groupAGet_ids (est : List App → List App → List Nat → Int × Int)
    (gi : String → Int) (rand : Nat → Nat) (s : SchedState) :
    (∀ ag, (GroupAdaptive.get_application_to_schedule est gi rand s).1 =
        .ok ag →
      ∃ i, i < s.queue.length ∧ ag.1.id = (s.queue.getD i dummyApp).id ∧
        idsOf (GroupAdaptive.get_application_to_schedule est gi rand
          s).2 = (idsOf s.queue).eraseIdx i) ∧
    ((GroupAdaptive.get_application_to_schedule est gi rand s).1 =
        .error .noApp →
      idsOf (GroupAdaptive.get_application_to_schedule est gi rand s).2 =
        idsOf s.queue) := by
  have hs := groupAGet_shape est gi rand s
  constructor
  · intro ag h
    obtain ⟨i, hi, happ, hq⟩ := hs.1 ag h
    refine ⟨i, ?_, ?_, ?_⟩
    · rw [← preQueue_length s]
      exact hi
    · rw [happ, preQueue_getD_id]
    · rw [hq, idsOf_eraseIdx, preQueue_ids]
  · intro h
    rw [hs.2 _ h, preQueue_ids]

theorem groupEGet_ids (est : List App → List App → List Nat → Int × Int)
    (gi : String → Int) (rand : Nat → Nat) (s : SchedState) :
    (∀ ag, (GroupAdaptiveExtend.get_application_to_schedule est gi rand
        s).1 = .ok ag →
      ∃ i, i < s.queue.length ∧ ag.1.id = (s.queue.getD i dummyApp).id ∧
        idsOf (GroupAdaptiveExtend.get_application_to_schedule est gi rand
          s).2 = (idsOf s.queue).eraseIdx i) ∧
    ((GroupAdaptiveExtend.get_application_to_schedule est gi rand s).1 =
        .error .noApp →
      idsOf (GroupAdaptiveExtend.get_application_to_schedule est gi rand
        s).2 = idsOf s.queue) := by
  have hs := groupEGet_shape est gi rand s
  constructor
  · intro ag h
    obtain ⟨i, hi, happ, hq⟩ := hs.1 ag h
    refine ⟨i, ?_, ?_, ?_⟩
    · rw [← preQueue_length s]
      exact hi
    · rw [happ, preQueue_getD_id]
    · rw [hq, idsOf_eraseIdx, preQueue_ids]
  · intro h
    rw [hs.2.2 h, preQueue_ids]

/-! ## Claim theorems -/

/-- C1 (amended): for every scheduler variant (the base
`schedule_application` shared by Random/RoundRobin — with any placement
that preserves the container count — the same template with the Adaptive
selection, and the two group variants), `schedule_application` either
returns an app whose `n_containers` is within `available_containers()`
as measured at the admission check *before* placement (at the moment of
return availability may already be smaller), or raises
`NoApplicationCanBeScheduled` leaving the cluster unchanged and the
queue holding the same applications — in the same order, except that a
selected app that failed the availability re-check is prepended at the
head while its former position is removed; runs aborting with a
different exception are outside this dichotomy. -/
theorem spec_C1_amended :
    (∀ (placeC : App → Cluster → App × Cluster) (s : SchedState),
      (∀ a c, (placeC a c).1.n_containers = a.n_containers) →
      admissionDichotomy s (schedule_application (fun st =>
        Scheduler.get_application_to_schedule
          st.cluster.available_containers st.queue) placeC s)) ∧
    (∀ (est : List App → List App → List Nat → Nat)
        (placeC : App → Cluster → App × Cluster) (s : SchedState),
      (∀ a c, (placeC a c).1.n_containers = a.n_containers) →
      admissionDichotomy s (schedule_application
        (Adaptive.get_application_to_schedule est) placeC s)) ∧
    (∀ (est : List App → List App → List Nat → Int × Int)
        (gi : String → Int) (si : String → Nat) (rand : Nat → Nat)
        (s : SchedState),
      admissionDichotomy s
        (GroupAdaptive.schedule_application est gi si rand s)) ∧
    (∀ (est : List App → List App → List Nat → Int × Int)
        (gi : String → Int) (si : String → Nat) (rand : Nat → Nat)
        (s : SchedState),
      admissionDichotomy s
        (GroupAdaptiveExtend.schedule_application est gi si rand s)) := by
  refine ⟨?_, ?_, ?_, ?_⟩
  · intro placeC s hplace
    exact schedule_application_dichotomy _ placeC s hplace
      (baseGet_ids s.cluster.available_containers s.queue).1
      (baseGet_ids s.cluster.available_containers s.queue).2
  · intro est placeC s hplace
    exact schedule_application_dichotomy _ placeC s hplace
      (adaptiveGet_ids est s).1 (adaptiveGet_ids est s).2
  · intro est gi si rand s
    exact group_schedule_application_dichotomy _ gi si s
      (groupAGet_ids est gi rand s).1 (groupAGet_ids est gi rand s).2
  · intro est gi si rand s
    exact group_schedule_application_dichotomy _ gi si s
      (groupEGet_ids est gi rand s).1 (groupEGet_ids est gi rand s).2

/-- C1 (counterexample): the claim as stated fails twice on
`GroupAdaptive.schedule_application` (the GroupAdaptiveExtend body is
identical).  Run (a), state `stA` (queue `[D]`, one empty node of
capacity 4, estimator answers `(-1, -1)`): the call returns app `D`
successfully, but after placement `available_containers()` is 0, so
`n_containers ≤ available_containers()` is false at the moment of
return.  Run (b), state `stB` (queue `[D, E]`, 2 free slots): the
random branch pops the *second* app `E`, the availability re-check
fails, `E` is prepended — the raise leaves the queue as `[E, D]`, not
the original order `[D, E]`. -/
theorem spec_C1_counterexample :
    ((GroupAdaptive.schedule_application estNeg gIdx0 slotsIdx1
        (fun _ => 0) stA).1 =
      .ok (⟨3, "D", 4, 0, some SLOT_1, [], none,
        [some "n1", some "n1", some "n1", some "n1"]⟩ : App)) ∧
    appD.n_containers = 4 ∧
    ((GroupAdaptive.schedule_application estNeg gIdx0 slotsIdx1
        (fun _ => 0) stA).2.cluster.available_containers = 0) ∧
    ((GroupAdaptive.schedule_application estNeg gIdx0 slotsIdx1
        (fun _ => 1) stB).1 = .error .noApp) ∧
    ((GroupAdaptive.schedule_application estNeg gIdx0 slotsIdx1
        (fun _ => 1) stB).2.cluster = stB.cluster) ∧
    idsOf (GroupAdaptive.schedule_application estNeg gIdx0 slotsIdx1
        (fun _ => 1) stB).2.queue = [4, 3] ∧
    idsOf stB.queue = [3, 4] := by
  refine ⟨?_, rfl, ?_, ?_, ?_, ?_, rfl⟩ <;>
    simp [GroupAdaptive.schedule_application, group_schedule_application,
      GroupAdaptive.get_application_to_schedule, groupALoop,
      place_containers_with_group, placeOnNodes, placeCore, placedCount,
      npRandint, estNeg, gIdx0, slotsIdx1, stA, stB, appD, appE, clusterA,
      clusterB, Cluster.available_containers, preQueue, incWindow, idsOf,
      dummyApp, SLOT_1, SLOT_2, List.range_succ]

/-- C1 (witness): the amended dichotomy applied to the base scheduler
template at the concrete state `stB` with an identity placement. -/
theorem spec_C1_amended_witness :
    admissionDichotomy stB (schedule_application (fun st =>
      Scheduler.get_application_to_schedule
        st.cluster.available_containers st.queue)
      (fun a c => (a, c)) stB) :=
  spec_C1_amended.1 (fun a c => (a, c)) stB (fun _ _ => rfl)

theorem preQueue_waiting (s : SchedState) (h2 : s.scheduled_apps_num > 2)
    (i : Nat) (hi : i < min s.jobs_to_peek s.queue.length) :
    ((preQueue s).getD i dummyApp).waiting_time =
      (s.queue.getD i dummyApp).waiting_time + 1 := by
  unfold preQueue
  rw [if_pos h2, incWindow_getD,
    if_pos ⟨hi, Nat.lt_of_lt_of_le hi (Nat.min_le_right _ _)⟩]
  rfl

/-- C2: in `GroupAdaptiveExtend.get_application_to_schedule`, when
`scheduled_apps_num > 2` and — after the per-round waiting-time
increment — some peek-window app exceeds `waiting_limit`, the call
returns, for *every* estimator and RNG (so without consulting the
estimator), the peek-window app with maximal (post-increment)
waiting-time, popped from the queue and paired with the group tag of the
first currently-scheduled application. -/
theorem spec_C2 (s : SchedState) (h2 : s.scheduled_apps_num > 2)
    (hlate : ∃ i, i < min s.jobs_to_peek s.queue.length ∧
      (((preQueue s).getD i dummyApp).waiting_time : Int) >
        s.waiting_limit)
    (hrun : s.cluster.runningNonFull ≠ []) :
    ∃ j, j < min s.jobs_to_peek s.queue.length ∧
      (((preQueue s).getD j dummyApp).waiting_time : Int) >
        s.waiting_limit ∧
      (∀ i, i < min s.jobs_to_peek s.queue.length →
        ((preQueue s).getD i dummyApp).waiting_time ≤
          ((preQueue s).getD j dummyApp).waiting_time) ∧
      ∀ (est : List App → List App → List Nat → Int × Int)
        (gi : String → Int) (rand : Nat → Nat),
        GroupAdaptiveExtend.get_application_to_schedule est gi rand s =
          (.ok ((preQueue s).getD j dummyApp,
            gi (s.cluster.runningNonFull.getD 0 dummyApp).name),
           (preQueue s).eraseIdx j) := by
  have hmin : min s.jobs_to_peek s.queue.length ≤ s.queue.length :=
    Nat.min_le_right _ _
  have hsnd := incLatePhase_snd s.waiting_limit s.queue
    (min s.jobs_to_peek s.queue.length) hmin
  have hfst : (incLatePhase s.waiting_limit s.queue
      (min s.jobs_to_peek s.queue.length)).1 = preQueue s := by
    rw [incLatePhase_fst _ _ _ hmin]
    unfold preQueue
    rw [if_pos h2]
  rcases hL : (incLatePhase s.waiting_limit s.queue
      (min s.jobs_to_peek s.queue.length)).2 with _ | j
  · exfalso
    obtain ⟨i, hi, hgt⟩ := hlate
    have hle := hsnd.1 hL i hi
    rw [preQueue_waiting s h2 i hi] at hgt
    push_cast at hgt
    omega
  · obtain ⟨hjn, hjgt, hjmax⟩ := hsnd.2 j hL
    refine ⟨j, hjn, ?_, ?_, ?_⟩
    · rw [preQueue_waiting s h2 j hjn]
      push_cast
      omega
    · intro i hi
      rw [preQueue_waiting s h2 i hi, preQueue_waiting s h2 j hjn]
      have := hjmax i hi
      omega
    · intro est gi rand
      unfold GroupAdaptiveExtend.get_application_to_schedule
      dsimp only
      rw [if_pos h2]
      rcases hsA : s.cluster.runningNonFull with _ | ⟨a0, rest⟩
      · exact absurd hsA hrun
      · simp only [hL, hsA, hfst]
        rfl

/-- C2 (witness): the override at the concrete state `stC`
(`scheduled_apps_num = 3`, `waiting_limit = 2`, post-increment
waiting-times `[2, 4, 4]`): the admitted app is the one at index 1, the
first of maximal waiting-time. -/
theorem spec_C2_witness :
    ∃ j, j < min stC.jobs_to_peek stC.queue.length ∧
      (((preQueue stC).getD j dummyApp).waiting_time : Int) >
        stC.waiting_limit ∧
      (∀ i, i < min stC.jobs_to_peek stC.queue.length →
        ((preQueue stC).getD i dummyApp).waiting_time ≤
          ((preQueue stC).getD j dummyApp).waiting_time) ∧
      ∀ (est : List App → List App → List Nat → Int × Int)
        (gi : String → Int) (rand : Nat → Nat),
        GroupAdaptiveExtend.get_application_to_schedule est gi rand stC =
          (.ok ((preQueue stC).getD j dummyApp,
            gi (stC.cluster.runningNonFull.getD 0 dummyApp).name),
           (preQueue stC).eraseIdx j) :=
  spec_C2 stC (by decide)
    ⟨1, by decide, by decide⟩ (by decide)

/-- C3: evaluation of `Adaptive.get_application_to_schedule` at the
failing input `stE` (queue `[A(9), B(9), C(4)]`, 4 free slots,
`jobs_to_peek = 3`, estimator `estC3` picking candidate 0 among three
candidates and candidate 1 among two).  In the second iteration the
estimator selects candidate 1 of `[B, C]` — app `C`, which fits — yet
the code checks and pops `self.queue[1] = B`, re-examines dropped
apps, and ends up raising `NoApplicationCanBeScheduled` with the queue
intact, although the selected peek-window candidate `C` fits. -/
theorem spec_C3_eval :
    Adaptive.get_application_to_schedule estC3 stE =
      (.error .noApp, [appA, appB, appC]) ∧
    stE.queue.getD 2 dummyApp = appC ∧
    2 < min stE.jobs_to_peek stE.queue.length ∧
    appC.n_containers ≤ stE.cluster.available_containers := by
  refine ⟨?_, by decide, by decide, by decide⟩
  simp [Adaptive.get_application_to_schedule, adaptiveLoop, estC3, stE,
    appA, appB, appC, clusterA, Cluster.available_containers, dummyApp,
    List.range_succ]

theorem placed_ks_length (nc p n : Nat) :
    (((List.range nc).map (fun j => j + p)).filter
      (fun k => k < n)).length = min nc (n - p) := by
  induction nc with
  | zero => simp
  | succ m ih =>
    rw [List.range_succ, List.map_append, List.filter_append,
      List.length_append, ih]
    by_cases h : m + p < n
    · simp only [List.map_cons, List.map_nil, List.filter_cons,
        decide_eq_true_eq, h, if_pos]
      simp only [List.filter_nil, List.length_cons, List.length_nil]
      omega
    · simp only [List.map_cons, List.map_nil, List.filter_cons,
        decide_eq_true_eq, h, if_false]
      simp only [List.filter_nil, List.length_nil]
      omega

/-- C4 (amended): `_place(app, node, k)` raises an error when `k ≤ 0`;
otherwise it places exactly `min(k, app.n_containers − p)` of the app's
yet-unplaced containers on the node (`p` the number already placed) —
but it *returns `k` itself*, the requested count, not the number
actually placed: the Python loop variable runs over the full
`range(n, n + k)` regardless of the inner bound check, so `k - n + 1`
evaluates to the request. -/
theorem spec_C4_amended (app : App) (addr : String) (node : Node)
    (k : Int) :
    (k ≤ 0 → place app addr node k = .error "Can not place") ∧
    (0 < k → ∃ app1 node1,
      place app addr node k = .ok (app1, node1, k.toNat) ∧
      node1.containers.length = node.containers.length +
        min k.toNat (app.n_containers - placedCount app)) := by
  constructor
  · intro hk
    unfold place
    rw [if_pos hk]
  · intro hk
    refine ⟨(placeCore app addr node k.toNat).1,
      (placeCore app addr node k.toNat).2.1, ?_, ?_⟩
    · unfold place
      rw [if_neg (by omega)]
      rfl
    · show (node.containers ++ _).length = _
      rw [List.length_append, List.length_map, placed_ks_length]

/-- C4 (counterexample): `_place` on an app with 2 containers, none yet
placed, and request 4: exactly 2 containers are placed on the node, but
the call returns 4 — not the number actually placed. -/
theorem spec_C4_counterexample :
    place appT "n1" ⟨4, []⟩ 4 =
      .ok (⟨5, "T", 2, 0, none, [], none, [some "n1", some "n1"]⟩,
        ⟨4, [(5, 0), (5, 1)]⟩, 4) ∧
    (⟨4, [(5, 0), (5, 1)]⟩ : Node).containers.length = 2 ∧
    (4 : Nat) ≠ 2 := by
  refine ⟨?_, rfl, by decide⟩
  rfl

/-- C4 (witness): the amended statement applied at `appT` with request
4: error-free, returns 4, places `min(4, 2 − 0) = 2`. -/
theorem spec_C4_witness :
    (0 : Int) < 4 ∧ ∃ app1 node1,
      place appT "n1" ⟨4, []⟩ 4 = .ok (app1, node1, (4 : Int).toNat) ∧
      node1.containers.length = ((⟨4, []⟩ : Node)).containers.length +
        min (4 : Int).toNat (appT.n_containers - placedCount appT) :=
  ⟨by decide, (spec_C4_amended appT "n1" ⟨4, []⟩ 4).2 (by decide)⟩

theorem range_map_getD {α : Type} (l : List α) (d : α) :
    (List.range l.length).map (fun j => l.getD j d) = l := by
  induction l with
  | nil => rfl
  | cons a t ih =>
    rw [List.length_cons, List.range_succ_eq_map]
    simp only [List.map_cons, List.getD_cons_zero, List.map_map]
    have hcomp : ((fun j => (a :: t).getD j d) ∘ Nat.succ) =
        fun j => t.getD j d := by
      funext j
      simp [Nat.succ_eq_add_one, List.getD_cons_succ]
    simp only [hcomp, ih]

theorem filter_ne_map_getD {α : Type} (l : List α) (d : α) (i : Nat) :
    ((List.range l.length).filter (fun j => j ≠ i)).map
      (fun j => l.getD j d) = l.eraseIdx i := by
  induction l generalizing i with
  | nil => rfl
  | cons a t ih =>
    rw [List.length_cons, List.range_succ_eq_map]
    cases i with
    | zero =>
      rw [List.filter_cons]
      have h0 : (decide (0 ≠ 0)) = false := by decide
      rw [h0]
      simp only [Bool.false_eq_true, if_false, List.filter_map]
      have hpred : ((fun j => decide (j ≠ 0)) ∘ Nat.succ) =
          fun _ => true := by
        funext j
        simp
      rw [hpred, List.filter_true, List.map_map]
      have hcomp : ((fun j => (a :: t).getD j d) ∘ Nat.succ) =
          fun j => t.getD j d := by
        funext j
        simp [Nat.succ_eq_add_one, List.getD_cons_succ]
      rw [hcomp, range_map_getD, List.eraseIdx_cons_zero]
    | succ m =>
      rw [List.filter_cons]
      have h0 : (decide (0 ≠ m + 1)) = true := by simp
      rw [h0]
      simp only [if_true, List.filter_map, List.map_cons,
        List.getD_cons_zero, List.map_map]
      have hpred : ((fun j => decide (j ≠ m + 1)) ∘ Nat.succ) =
          fun j => decide (j ≠ m) := by
        funext j
        simp [Nat.succ_eq_add_one]
      have hcomp : ((fun j => (a :: t).getD j d) ∘ Nat.succ) =
          fun j => t.getD j d := by
        funext j
        simp [Nat.succ_eq_add_one, List.getD_cons_succ]
      rw [hpred, hcomp, ih, List.eraseIdx_cons_succ]

/-- C5: on a tick, `update_estimation` emits updates only for node
observations with at least one app and a non-idle usage sample; such an
observation with `k` apps yields exactly `k` calls, the `i`-th targeting
`apps[i]` with the remaining `k − 1` apps as peers and `usage.rate()` as
rate; a tick whose samples are all idle or app-free performs no
estimator update at all. -/
theorem spec_C5 (obs : List (List App × Usage)) :
    update_estimation obs = obs.flatMap (fun au =>
      if au.1 ≠ [] ∧ au.2.is_not_idle then
        (List.range au.1.length).map (fun i =>
          (⟨au.1.getD i dummyApp, au.1.eraseIdx i, au.2.rate⟩ :
            UpdateCall))
      else []) ∧
    ((∀ au ∈ obs, au.1 = [] ∨ au.2.is_not_idle = false) →
      update_estimation obs = []) := by
  have h1 : update_estimation obs = obs.flatMap (fun au =>
      if au.1 ≠ [] ∧ au.2.is_not_idle then
        (List.range au.1.length).map (fun i =>
          (⟨au.1.getD i dummyApp, au.1.eraseIdx i, au.2.rate⟩ :
            UpdateCall))
      else []) := by
    unfold update_estimation
    congr 1
    funext au
    by_cases hc : au.1 ≠ [] ∧ au.2.is_not_idle = true
    · rw [if_pos hc, if_pos ⟨List.length_pos.mpr hc.1, hc.2⟩]
      unfold leaveOneOut
      rw [List.map_map]
      apply List.map_congr_left
      intro i _
      show (⟨au.1.getD i dummyApp, _, au.2.rate⟩ : UpdateCall) = _
      have hpeers : ((List.range au.1.length).filter
          (fun j => j ≠ i)).map (fun j => au.1.getD j dummyApp) =
          au.1.eraseIdx i := filter_ne_map_getD au.1 dummyApp i
      rw [hpeers]
    · rw [if_neg hc, if_neg ?_]
      intro hpos
      exact hc ⟨List.length_pos.mp hpos.1, hpos.2⟩
  refine ⟨h1, ?_⟩
  intro hall
  rw [h1]
  rw [List.flatMap_eq_nil_iff]
  intro au hau
  rcases hall au hau with h | h
  · rw [if_neg]
    intro hpos
    exact hpos.1 h
  · rw [if_neg]
    intro hpos
    rw [h] at hpos
    exact Bool.false_ne_true hpos.2

/-- C5 (witness): two all-idle or app-free samples produce no update. -/
theorem spec_C5_witness :
    update_estimation [([], ⟨true, 3⟩), ([appA, appB], ⟨false, 5⟩)] =
      [] :=
  (spec_C5 [([], ⟨true, 3⟩), ([appA, appB], ⟨false, 5⟩)]).2 (by decide)

theorem preQueue_getD_mem (s : SchedState) (i : Nat)
    (hi : i < (preQueue s).length) :
    (preQueue s).getD i dummyApp ∈ preQueue s := by
  rw [List.getD_eq_getElem _ _ hi]
  exact List.getElem_mem _

/-- C6: in Adaptive, GroupAdaptive and GroupAdaptiveExtend, each call to
`get_application_to_schedule` acts on `preQueue`: when
`scheduled_apps_num > 2` every app in the peek window has its
waiting-time incremented by exactly 1 before selection and apps outside
the window are untouched, while in earlier rounds the queue is left
as-is; and no selection ever decreases a waiting-time — every app left
in the queue afterwards, and the admitted app itself, has waiting-time
at least its pre-call value (matched by identity). -/
theorem spec_C6 :
    (∀ s : SchedState,
      (¬ s.scheduled_apps_num > 2 → preQueue s = s.queue) ∧
      (s.scheduled_apps_num > 2 → ∀ i,
        ((preQueue s).getD i dummyApp).waiting_time =
          (if i < min s.jobs_to_peek s.queue.length then
            (s.queue.getD i dummyApp).waiting_time + 1
          else (s.queue.getD i dummyApp).waiting_time))) ∧
    (∀ (est : List App → List App → List Nat → Nat) (s : SchedState),
      (∀ b ∈ (Adaptive.get_application_to_schedule est s).2,
        ∃ a ∈ s.queue, a.id = b.id ∧ a.waiting_time ≤ b.waiting_time) ∧
      (∀ app, (Adaptive.get_application_to_schedule est s).1 = .ok app →
        ∃ a ∈ s.queue, a.id = app.id ∧
          a.waiting_time ≤ app.waiting_time)) ∧
    (∀ (est : List App → List App → List Nat → Int × Int)
        (gi : String → Int) (rand : Nat → Nat) (s : SchedState),
      (∀ b ∈ (GroupAdaptive.get_application_to_schedule est gi rand s).2,
        ∃ a ∈ s.queue, a.id = b.id ∧ a.waiting_time ≤ b.waiting_time) ∧
      (∀ ag, (GroupAdaptive.get_application_to_schedule est gi rand
          s).1 = .ok ag →
        ∃ a ∈ s.queue, a.id = ag.1.id ∧
          a.waiting_time ≤ ag.1.waiting_time)) ∧
    (∀ (est : List App → List App → List Nat → Int × Int)
        (gi : String → Int) (rand : Nat → Nat) (s : SchedState),
      (∀ b ∈ (GroupAdaptiveExtend.get_application_to_schedule est gi rand
          s).2,
        ∃ a ∈ s.queue, a.id = b.id ∧ a.waiting_time ≤ b.waiting_time) ∧
      (∀ ag, (GroupAdaptiveExtend.get_application_to_schedule est gi rand
          s).1 = .ok ag →
        ∃ a ∈ s.queue, a.id = ag.1.id ∧
          a.waiting_time ≤ ag.1.waiting_time)) := by
  refine ⟨?_, ?_, ?_, ?_⟩
  · intro s
    constructor
    · intro h
      unfold preQueue
      rw [if_neg h]
    · intro h i
      unfold preQueue
      rw [if_pos h, incWindow_getD]
      by_cases hi : i < min s.jobs_to_peek s.queue.length
      · rw [if_pos ⟨hi, Nat.lt_of_lt_of_le hi (Nat.min_le_right _ _)⟩,
          if_pos hi]
        rfl
      · rw [if_neg (fun hc => hi hc.1), if_neg hi]
  · intro est s
    have hs := adaptiveGet_shape est s
    constructor
    · intro b hb
      rcases h1 : (Adaptive.get_application_to_schedule est s).1 with e | app
      · rw [hs.2 e h1] at hb
        exact preQueue_mem s b hb
      · obtain ⟨i, hi, _, hq⟩ := hs.1 app h1
        rw [hq] at hb
        exact preQueue_mem s b (List.eraseIdx_subset _ _ hb)
    · intro app h1
      obtain ⟨i, hi, happ, _⟩ := hs.1 app h1
      rw [happ]
      exact preQueue_mem s _ (preQueue_getD_mem s i hi)
  · intro est gi rand s
    have hs := groupAGet_shape est gi rand s
    constructor
    · intro b hb
      rcases h1 : (GroupAdaptive.get_application_to_schedule est gi rand
          s).1 with e | ag
      · rw [hs.2 e h1] at hb
        exact preQueue_mem s b hb
      · obtain ⟨i, hi, _, hq⟩ := hs.1 ag h1
        rw [hq] at hb
        exact preQueue_mem s b (List.eraseIdx_subset _ _ hb)
    · intro ag h1
      obtain ⟨i, hi, happ, _⟩ := hs.1 ag h1
      rw [happ]
      exact preQueue_mem s _ (preQueue_getD_mem s i hi)
  · intro est gi rand s
    have hs := groupEGet_shape est gi rand s
    constructor
    · intro b hb
      rcases h1 : (GroupAdaptiveExtend.get_application_to_schedule est gi
          rand s).1 with e | ag
      · rcases hs.2.1 e h1 with hq | ⟨i, hq⟩
        · rw [hq] at hb
          exact preQueue_mem s b hb
        · rw [hq] at hb
          exact preQueue_mem s b (List.eraseIdx_subset _ _ hb)
      · obtain ⟨i, hi, _, hq⟩ := hs.1 ag h1
        rw [hq] at hb
        exact preQueue_mem s b (List.eraseIdx_subset _ _ hb)
    · intro ag h1
      obtain ⟨i, hi, happ, _⟩ := hs.1 ag h1
      rw [happ]
      exact preQueue_mem s _ (preQueue_getD_mem s i hi)

/-- C6 (witness): at `stC` (fourth round) the second queued app's
waiting-time is incremented by exactly 1 in the pre-selection queue; and
after the GroupAdaptive call at `stB` popping app `E`, the remaining app
`D` kept a waiting-time at least its pre-call value. -/
theorem spec_C6_witness :
    ((preQueue stC).getD 1 dummyApp).waiting_time =
      (stC.queue.getD 1 dummyApp).waiting_time + 1 ∧
    (∃ a ∈ stB.queue, a.id = appD.id ∧
      a.waiting_time ≤ appD.waiting_time) := by
  constructor
  · have h := (spec_C6.1 stC).2 (by decide) 1
    exact h.trans (by decide)
  · refine (spec_C6.2.2.1 estNeg gIdx0 (fun _ => 1) stB).1 appD ?_
    simp [GroupAdaptive.get_application_to_schedule, groupALoop,
      npRandint, estNeg, gIdx0, stB, appD, appE, clusterB,
      Cluster.available_containers, preQueue, incWindow, dummyApp,
      List.range_succ]

theorem sum_map_div (l : List App) (f : App → ℚ) (W : ℚ) :
    (l.map (fun a => f a / W)).sum = (l.map f).sum / W := by
  induction l with
  | nil => simp
  | cons a t ih => simp [ih, add_div]

theorem cast_sum_waiting (l : List App) :
    (((l.map (fun a => a.waiting_time)).sum : Nat) : ℚ) =
      (l.map (fun a => (a.waiting_time : ℚ))).sum := by
  induction l with
  | nil => simp
  | cons a t ih => simp only [List.map_cons, List.sum_cons, Nat.cast_add, ih]

theorem sum_map_constQ (l : List App) (c : ℚ) :
    (l.map (fun _ => c)).sum = (l.length : ℚ) * c := by
  induction l with
  | nil => simp
  | cons a t ih =>
    simp only [List.map_cons, List.sum_cons, ih, List.length_cons]
    push_cast
    ring

/-- C7: for every non-empty list of apps (waiting-times are
non-negative integers by construction),
`get_waiting_time_based_probability` returns a list of the same length
summing to 1; when the total waiting-time is non-zero each entry is
`waiting_time / total` (probability proportional to waiting-time), and
in the degenerate zero-total case the distribution is uniform
(`1 / n` each).  Divisions are modelled exactly in `ℚ`. -/
theorem spec_C7 (l : List App) (h : l ≠ []) :
    (get_waiting_time_based_probability l).length = l.length ∧
    (get_waiting_time_based_probability l).sum = 1 ∧
    ((l.map (fun a => a.waiting_time)).sum ≠ 0 →
      get_waiting_time_based_probability l = l.map (fun a =>
        (a.waiting_time : ℚ) /
          ((l.map (fun a => a.waiting_time)).sum : ℚ))) ∧
    ((l.map (fun a => a.waiting_time)).sum = 0 →
      get_waiting_time_based_probability l = l.map (fun _ =>
        1 / (l.length : ℚ))) := by
  have hlen : (l.length : ℚ) ≠ 0 := by
    have : l.length ≠ 0 := fun hc => h (List.eq_nil_of_length_eq_zero hc)
    exact_mod_cast this
  unfold get_waiting_time_based_probability
  by_cases hW : (l.map (fun a => a.waiting_time)).sum = 0
  · rw [if_pos hW]
    have hz : ∀ a ∈ l, a.waiting_time = 0 := fun a ha =>
      List.sum_eq_zero_iff.mp hW _ (List.mem_map_of_mem _ ha)
    have hmap : l.map (fun a =>
        ((a.waiting_time : ℚ) + 1) / ((1 * l.length : Nat) : ℚ)) =
        l.map (fun _ => 1 / (l.length : ℚ)) := by
      apply List.map_congr_left
      intro a ha
      rw [hz a ha]
      push_cast
      rw [one_mul]
      norm_num
    refine ⟨by simp, ?_, fun hc => absurd hW hc, fun _ => hmap⟩
    rw [hmap, sum_map_constQ]
    field_simp
  · rw [if_neg hW]
    refine ⟨by simp, ?_, fun _ => by rw [cast_sum_waiting], fun hc => absurd hc hW⟩
    rw [sum_map_div, ← cast_sum_waiting]
    exact div_self (by exact_mod_cast hW)

/-- C7 (witness): the probabilities at the concrete list `[D, E]` (both
waiting-times 0): two entries, uniform `1/2` each, summing to 1. -/
theorem spec_C7_witness :
    (get_waiting_time_based_probability [appD, appE]).length = 2 ∧
    (get_waiting_time_based_probability [appD, appE]).sum = 1 ∧
    get_waiting_time_based_probability [appD, appE] = [1 / 2, 1 / 2] := by
  have h := spec_C7 [appD, appE] (by decide)
  refine ⟨h.1, h.2.1, ?_⟩
  rw [h.2.2.2 (by decide)]
  simp

/-- C8 (amended): with default options every variant ends up with
`jobs_to_peek = jobs_to_peek_arg = 7` — the per-class constructor
parameter defaults (8 for Adaptive, 6 for GroupAdaptive/Extend) are dead,
as each `__init__` overwrites `jobs_to_peek` with the class attribute
`jobs_to_peek_arg`; GroupAdaptiveExtend's default `waiting_limit` equals
`2 × jobs_to_peek = 14`. -/
theorem spec_C8_amended :
    Scheduler.init.jobs_to_peek = 7 ∧
    Adaptive.init.jobs_to_peek = 7 ∧
    GroupAdaptive.init.jobs_to_peek = 7 ∧
    GroupAdaptiveExtend.init.jobs_to_peek = 7 ∧
    GroupAdaptiveExtend.init.waiting_limit =
      2 * (GroupAdaptiveExtend.init.jobs_to_peek : Int) := by
  refine ⟨rfl, rfl, rfl, rfl, ?_⟩
  decide

/-- C8 (counterexample): after default construction, Adaptive's
`jobs_to_peek` is 7, not 8, and the group variants' is 7, not 6: the
constructor parameters are never read. -/
theorem spec_C8_counterexample :
    Adaptive.init.jobs_to_peek ≠ 8 ∧
    GroupAdaptive.init.jobs_to_peek ≠ 6 ∧
    GroupAdaptiveExtend.init.jobs_to_peek ≠ 6 := by
  refine ⟨?_, ?_, ?_⟩ <;> decide

/-- C9: if `existing_group ≠ -1` and no currently-running application
(per `applications(with_full_nodes=False, by_name=True)`) carries that
group tag, `place_containers_with_group` is a complete no-op — zero
containers placed, every node and the app's `cluster_slot` untouched, no
error — and the group `schedule_application` (shared by GroupAdaptive
and GroupAdaptiveExtend) still returns the app as successfully
admitted. -/
theorem spec_C9 (gi : String → Int) (si : String → Nat) (app : App)
    (g : Int) (c : Cluster) (hg : g ≠ -1)
    (hnone : ∀ r ∈ c.runningNonFull, gi r.name ≠ g) :
    place_containers_with_group gi si app g c = (app, c) ∧
    ∀ (getApp : SchedState → Except SchedErr (App × Int) × List App)
      (s : SchedState) (q1 : List App),
      s.cluster = c →
      getApp s = (.ok (app, g), q1) →
      s.cluster.available_containers ≠ 0 →
      app.n_containers ≤ s.cluster.available_containers →
      group_schedule_application getApp gi si s =
        (.ok app, ⟨q1, c, s.jobs_to_peek, s.scheduled_apps_num,
          s.waiting_limit⟩) := by
  have hfind : c.runningNonFull.find? (fun r => gi r.name = g) = none := by
    rw [List.find?_eq_none]
    intro x hx
    simp only [decide_eq_true_eq]
    exact hnone x hx
  have hplace : place_containers_with_group gi si app g c = (app, c) := by
    unfold place_containers_with_group
    rw [if_neg hg]
    simp only [hfind]
  refine ⟨hplace, ?_⟩
  intro getApp s q1 hc hget h0 hfit
  unfold group_schedule_application
  rw [if_neg h0, hget]
  dsimp only
  rw [if_neg (by omega)]
  rw [hc, hplace]

/-- C9 (witness): app `D` "admitted" into group 5 with no running app of
group 5: placement is a no-op and the admission succeeds anyway. -/
theorem spec_C9_witness :
    place_containers_with_group gIdx0 slotsIdx1 appD 5 clusterA =
      (appD, clusterA) ∧
    group_schedule_application (fun _ => (.ok (appD, 5), [])) gIdx0
      slotsIdx1 stA = (.ok appD, ⟨[], clusterA, 7, 0, -1⟩) := by
  have h := spec_C9 gIdx0 slotsIdx1 appD 5 clusterA (by decide)
    (by decide)
  exact ⟨h.1, h.2 _ stA [] rfl rfl (by decide) (by decide)⟩

theorem groupALoop_emptyGroup
    (est : List App → List App → List Nat → Int × Int)
    (gi : String → Int) (rand : Nat → Nat) (sA : List App)
    (sW : List Nat) (avail : Nat) (q : List App) (i0 : Nat)
    (index' : List Nat) (t : Nat)
    (hg : (est sA ((i0 :: index').map (fun i => q.getD i dummyApp))
      sW).1 ≠ -1)
    (hfilter : (i0 :: index').filter (fun i =>
      gi (q.getD i dummyApp).name =
        (est sA ((i0 :: index').map (fun i => q.getD i dummyApp))
          sW).1) = []) :
    groupALoop est gi rand sA sW avail q (i0 :: index') t =
      (.error .fatal, q) := by
  simp only [groupALoop]
  rw [if_neg hg, hfilter]
  rfl

theorem groupELoop_emptyGroup
    (est : List App → List App → List Nat → Int × Int)
    (gi : String → Int) (rand : Nat → Nat) (sA : List App)
    (sW : List Nat) (avail : Nat) (q : List App) (i0 : Nat)
    (index' : List Nat) (t : Nat)
    (hg : (est sA ((i0 :: index').map (fun i => q.getD i dummyApp))
      sW).1 ≠ -1)
    (hfilter : (i0 :: index').filter (fun i =>
      gi (q.getD i dummyApp).name =
        (est sA ((i0 :: index').map (fun i => q.getD i dummyApp))
          sW).1) = []) :
    groupELoop est gi rand sA sW avail q (i0 :: index') t =
      (.error .fatal, q) := by
  simp only [groupELoop]
  rw [if_neg hg, hfilter]
  rfl

/-- C10: the group selections are safe only when some peek-window app
carries the estimator's `best_group_to_schedule`: if the estimator
returns a group `≠ -1` matched by no peek-window app, the uniform
(GroupAdaptive) resp. waiting-time-weighted (GroupAdaptiveExtend) draw
runs over an empty candidate list and the call aborts with a fatal error
(numpy `ValueError`) instead of raising `NoApplicationCanBeScheduled`.
(Stated for rounds before the waiting-time machinery kicks in,
`scheduled_apps_num ≤ 2`, so the window is the untouched queue
prefix.) -/
theorem spec_C10 (est : List App → List App → List Nat → Int × Int)
    (gi : String → Int) (rand : Nat → Nat) (s : SchedState)
    (h2 : ¬ s.scheduled_apps_num > 2)
    (hne : s.queue ≠ []) (hjp : 0 < s.jobs_to_peek)
    (hg : (est s.cluster.runningNonFull
      ((List.range (min s.jobs_to_peek s.queue.length)).map
        (fun i => s.queue.getD i dummyApp))
      s.cluster.runningNonFullW).1 ≠ -1)
    (hmatch : ∀ i, i < min s.jobs_to_peek s.queue.length →
      gi (s.queue.getD i dummyApp).name ≠
        (est s.cluster.runningNonFull
          ((List.range (min s.jobs_to_peek s.queue.length)).map
            (fun i => s.queue.getD i dummyApp))
          s.cluster.runningNonFullW).1) :
    GroupAdaptive.get_application_to_schedule est gi rand s =
      (.error .fatal, s.queue) ∧
    GroupAdaptiveExtend.get_application_to_schedule est gi rand s =
      (.error .fatal, s.queue) := by
  have hn1 : min s.jobs_to_peek s.queue.length ≠ 0 := by
    have hq : 0 < s.queue.length := List.length_pos.mpr hne
    omega
  have hfilter : (List.range (min s.jobs_to_peek s.queue.length)).filter
      (fun i => gi (s.queue.getD i dummyApp).name =
        (est s.cluster.runningNonFull
          ((List.range (min s.jobs_to_peek s.queue.length)).map
            (fun i => s.queue.getD i dummyApp))
          s.cluster.runningNonFullW).1) = [] := by
    rw [List.filter_eq_nil_iff]
    intro a ha
    simp only [decide_eq_true_eq]
    exact hmatch a (List.mem_range.mp ha)
  rcases hr : List.range (min s.jobs_to_peek s.queue.length)
      with _ | ⟨i0, index'⟩
  · exfalso
    have := List.range_eq_nil.mp hr
    exact hn1 this
  · rw [hr] at hg hfilter
    constructor
    · unfold GroupAdaptive.get_application_to_schedule
      dsimp only
      rw [if_neg h2, hr]
      exact groupALoop_emptyGroup est gi rand _ _ _ _ _ _ _ hg hfilter
    · unfold GroupAdaptiveExtend.get_application_to_schedule
      dsimp only
      rw [if_neg h2, hr]
      exact groupELoop_emptyGroup est gi rand _ _ _ _ _ _ _ hg hfilter

/-- C10 (witness): at `stD` (queue `[D, E]`, everything in group 0) with
an estimator demanding group 5, both group selections abort with the
fatal error, not `NoApplicationCanBeScheduled`. -/
theorem spec_C10_witness :
    GroupAdaptive.get_application_to_schedule estG5 gIdx0 (fun _ => 0)
      stD = (.error .fatal, stD.queue) ∧
    GroupAdaptiveExtend.get_application_to_schedule estG5 gIdx0
      (fun _ => 0) stD = (.error .fatal, stD.queue) :=
  spec_C10 estG5 gIdx0 (fun _ => 0) stD (by decide) (by decide)
    (by decide) (by decide) (fun i _ => by
      unfold gIdx0 estG5
      decide)

end GroupSched
